import Mathlib

/-!
# Verification of the PMDA ETL normalization and reconstruction engine

Shallow embedding of the core transformation functions of the
`coreason_etl_pmda` repository, together with proofs that settle the frozen
claims about the natural-language specification.

Embedded source files:
* `src/coreason_etl_pmda/utils_date.py` (`convert_japanese_date_to_iso`)
* `src/coreason_etl_pmda/utils_text.py` (`normalize_text`)
* `src/coreason_etl_pmda/transform_silver.py` (`normalize_approvals`,
  `jan_bridge_lookup`, `jan_bridge_ai_fallback`, `call_deepseek`, `generate_id`)
* `src/coreason_etl_pmda/silver/transform_silver_jader.py` (`_normalize_common`)
* `src/coreason_etl_pmda/transform_gold_jader.py` (legacy reconstructor)
* `src/coreason_etl_pmda/transformations/gold/transform_gold_jader.py`
* `src/coreason_etl_pmda/transform_gold_approvals.py` (`transform_approvals_gold`)
* `src/coreason_etl_pmda/pipeline_full.py` (orchestrator fragments)

Strings are modelled as `List Char`; tabular data as association-list rows.
Machine-word arithmetic (SHA-256) is modelled with `Nat` and explicit
`% 2 ^ 32`.
-/

set_option maxHeartbeats 4000000
set_option maxRecDepth 20000

namespace CoreasonEtlPmda

/-- Strings of the embedded program are lists of characters. -/
abbrev Str := List Char

/-- Shorthand to move a Lean string literal into the embedding. -/
def cs (s : String) : Str := s.data

/-! ## Character classes (model of Python `str` predicates)

Python's `re` module with `str` patterns treats any Unicode decimal digit as
`\d` and any Unicode whitespace as `\s`.  The repository's data only ever
carries ASCII digits and full-width digits (U+FF10..U+FF19), and ASCII
whitespace plus the ideographic space U+3000, so the predicates below model
the Python classes restricted to that repertoire. -/

/-- ASCII decimal digit. -/
def isAsciiDigit (c : Char) : Bool := '0' ≤ c && c ≤ '9'

/-- Full-width decimal digit ０..９ (U+FF10..U+FF19). -/
def isFullwidthDigit (c : Char) : Bool :=
  0xFF10 ≤ c.toNat && c.toNat ≤ 0xFF19

/-- Model of Python `\d` on the repository's character repertoire. -/
def isPyDigit (c : Char) : Bool := isAsciiDigit c || isFullwidthDigit c

/-- Numeric value of a digit accepted by `isPyDigit` (Python `int` accepts
full-width digits as well). -/
def digitVal (c : Char) : Nat :=
  if isAsciiDigit c then c.toNat - '0'.toNat else c.toNat - 0xFF10

/-- Model of Python `\s` / `str.strip` whitespace on the repository's
repertoire: ASCII whitespace and the ideographic space U+3000. -/
def isPySpace (c : Char) : Bool :=
  c = ' ' || c = '\t' || c = '\n' || c = '\r' ||
  c = Char.ofNat 0x0B || c = Char.ofNat 0x0C || c = Char.ofNat 0x3000

/-- ASCII lower-casing, the case folding relevant to the embedded regexes
(Python `str.lower` restricted to ASCII letters). -/
def toLowerChar (c : Char) : Char :=
  if 'A' ≤ c && c ≤ 'Z' then Char.ofNat (c.toNat + 32) else c

/-- ASCII upper-casing (Python `str.upper` restricted to ASCII letters). -/
def toUpperChar (c : Char) : Char :=
  if 'a' ≤ c && c ≤ 'z' then Char.ofNat (c.toNat - 32) else c

/-- `str.lower`. -/
def lowerStr (s : Str) : Str := s.map toLowerChar

/-- `str.capitalize`: first character upper-cased, the rest lower-cased. -/
def capitalizeStr : Str → Str
  | [] => []
  | c :: rest => toUpperChar c :: lowerStr rest

/-- `str.startswith` for a single-character pattern, which is all the source
uses (`era_str.startswith("R")` and friends). -/
def startsWithChar (s : Str) (c : Char) : Bool :=
  match s with
  | [] => false
  | d :: _ => d = c

/-- `str.strip()`: drop leading and trailing whitespace. -/
def pyStrip (s : Str) : Str :=
  ((s.dropWhile isPySpace).reverse.dropWhile isPySpace).reverse

/-- `int(...)` on a non-empty run of decimal digits (ASCII or full-width). -/
def natOfDigits (s : Str) : Nat :=
  s.foldl (fun acc c => acc * 10 + digitVal c) 0

/-- Worker for `natDigits`; the fuel dominates the number of digits. -/
def natDigitsFuel : Nat → Nat → Str
  | 0, _ => []
  | fuel + 1, n =>
    if n < 10 then [Char.ofNat ('0'.toNat + n)]
    else natDigitsFuel fuel (n / 10) ++ [Char.ofNat ('0'.toNat + n % 10)]

/-- Decimal digit characters of `n`, most significant first. -/
def natDigits (n : Nat) : Str := natDigitsFuel (n + 1) n

/-- `"%0Nd"`-style zero padding, as used by `date.isoformat`. -/
def padNat (width n : Nat) : Str :=
  let ds := natDigits n
  List.replicate (width - ds.length) '0' ++ ds

/-! ## Era Date Normalizer
(`src/coreason_etl_pmda/utils_date.py`, `convert_japanese_date_to_iso`)

The source locates an era token with
`re.search("(Reiwa|Heisei|Showa|Taisho|Meiji|R|H|S|T|M)\s*(\d+|Gannen)", s,
re.IGNORECASE)`.  The scanner below models that search: leftmost match wins;
at a given position the alternatives are tried in the pattern's order; `\s*`
is greedy (backtracking it cannot help, since no whitespace character is a
digit or the letter G); `\d+` takes the maximal digit run. -/

/-- `ERA_START_YEARS` from the source. -/
def ERA_START_YEARS : List (Str × Int) :=
  [(cs "Reiwa", 2019), (cs "Heisei", 1989), (cs "Showa", 1926),
   (cs "Taisho", 1912), (cs "Meiji", 1868)]

/-- The era alternatives of the source regex, in the pattern's order. -/
def eraAlternatives : List Str :=
  [cs "Reiwa", cs "Heisei", cs "Showa", cs "Taisho", cs "Meiji",
   cs "R", cs "H", cs "S", cs "T", cs "M"]

/-- Case-insensitive literal match at the head of the input: returns the
consumed text (in its original case) and the rest. -/
def ciMatch : Str → Str → Option (Str × Str)
  | [], s => some ([], s)
  | _ :: _, [] => none
  | p :: ps, c :: rest =>
    if toLowerChar c = toLowerChar p then
      match ciMatch ps rest with
      | some (took, rem) => some (c :: took, rem)
      | none => none
    else none

/-- First-key association lookup. -/
def assocFind (l : List (Str × Int)) (k : Str) : Option Int :=
  match l with
  | [] => none
  | (a, v) :: rest => if a = k then some v else assocFind rest k

/-- Try to match `era \s* (digit-run | Gannen)` at the current position,
trying the era alternatives in order.  Returns
(matched era text, matched year text, input after the match). -/
def matchEraYearAt (s : Str) : Option (Str × Str × Str) :=
  go eraAlternatives
where
  go : List Str → Option (Str × Str × Str)
    | [] => none
    | alt :: alts =>
      match ciMatch alt s with
      | none => go alts
      | some (eraText, afterEra) =>
        let afterWs := afterEra.dropWhile isPySpace
        match afterWs with
        | [] => go alts
        | c :: _ =>
          if isPyDigit c then
            let yearText := afterWs.takeWhile isPyDigit
            some (eraText, yearText, afterWs.dropWhile isPyDigit)
          else
            match ciMatch (cs "Gannen") afterWs with
            | some (yearText, rest) => some (eraText, yearText, rest)
            | none => go alts

/-- `re.search` for the era+year pattern: scan positions left to right. -/
def searchEraYear : Str → Option (Str × Str × Str)
  | [] => none
  | c :: rest =>
    match matchEraYearAt (c :: rest) with
    | some m => some m
    | none => searchEraYear rest

/-- `re.sub(r"\(\d{4}\)", "", s)`: delete every parenthesised four-digit
group, scanning left to right. -/
def stripParenYears : Str → Str
  | [] => []
  | c :: d1 :: d2 :: d3 :: d4 :: cp :: tail =>
    if c = '(' && isPyDigit d1 && isPyDigit d2 && isPyDigit d3 &&
        isPyDigit d4 && cp = ')' then
      stripParenYears tail
    else c :: stripParenYears (d1 :: d2 :: d3 :: d4 :: cp :: tail)
  | c :: rest => c :: stripParenYears rest

/-- Worker for `findNumbers`: `cur` is the current digit run, reversed. -/
def findNumbersGo (cur : Str) : Str → List Str
  | [] => if cur = [] then [] else [cur.reverse]
  | c :: rest =>
    if isPyDigit c then findNumbersGo (c :: cur) rest
    else if cur = [] then findNumbersGo [] rest
    else cur.reverse :: findNumbersGo [] rest

/-- `re.findall(r"\d+", s)`: the maximal digit runs of `s`, left to right. -/
def findNumbers (s : Str) : List Str := findNumbersGo [] s

/-- Gregorian leap year, as implemented by `datetime`. -/
def isLeapYear (y : Nat) : Bool :=
  y % 4 = 0 && (y % 100 ≠ 0 || y % 400 = 0)

/-- Days in a month, as implemented by `datetime` (requires `1 ≤ m ≤ 12`). -/
def daysInMonth (y m : Nat) : Nat :=
  if m = 2 then (if isLeapYear y then 29 else 28)
  else if m = 4 || m = 6 || m = 9 || m = 11 then 30
  else 31

/-- Model of the `datetime.date(y, m, d)` constructor: `some` of the triple
when the date is a valid proleptic-Gregorian calendar date within
`datetime`'s year range 1..9999, `none` when the constructor raises
`ValueError`. -/
def pyDate (y : Int) (m d : Nat) : Option (Nat × Nat × Nat) :=
  if 1 ≤ y ∧ y ≤ 9999 then
    let yn := y.toNat
    if 1 ≤ m ∧ m ≤ 12 then
      if 1 ≤ d ∧ d ≤ daysInMonth yn m then some (yn, m, d) else none
    else none
  else none

/-- `date.isoformat()`: `YYYY-MM-DD` with zero padding. -/
def isoFormat (y m d : Nat) : Str :=
  padNat 4 y ++ ['-'] ++ padNat 2 m ++ ['-'] ++ padNat 2 d

/-- The Gannen/offset arithmetic, month/day extraction, `datetime.date`
validation and ISO formatting of `convert_japanese_date_to_iso` (the code
after the era dictionary lookup). -/
def convertEraTail (startYear : Int) (yearText remaining : Str) : Option Str :=
  let yearOffset : Int :=
    if lowerStr yearText = cs "gannen" then 0
    else (natOfDigits yearText : Int) - 1
  let gregorianYear : Int := startYear + yearOffset
  let remaining2 := stripParenYears remaining
  let numbers := findNumbers remaining2
  let md : Nat × Nat :=
    if numbers.length ≥ 2 then
      (natOfDigits (numbers.headD []), natOfDigits (numbers.tail.headD []))
    else if numbers.length = 1 then (natOfDigits (numbers.headD []), 1)
    else (1, 1)
  match pyDate gregorianYear md.1 md.2 with
  | some (yy, mm, dd) => some (isoFormat yy mm dd)
  | none => none

/-- The post-match body of `convert_japanese_date_to_iso`:
`capitalize`/`startswith` era resolution, dictionary lookup, then the tail
computation. -/
def convertEraMatch (eraText yearText remaining : Str) : Option Str :=
  let eraStr := capitalizeStr eraText
  let era :=
    if startsWithChar eraStr 'R' then cs "Reiwa"
    else if startsWithChar eraStr 'H' then cs "Heisei"
    else if startsWithChar eraStr 'S' then cs "Showa"
    else if startsWithChar eraStr 'T' then cs "Taisho"
    else if startsWithChar eraStr 'M' then cs "Meiji"
    else eraStr
  match assocFind ERA_START_YEARS era with
  | none => none
  | some startYear => convertEraTail startYear yearText remaining

/-- Embedding of `convert_japanese_date_to_iso` from
`src/coreason_etl_pmda/utils_date.py`, shaped like the Python source:
empty-input guard, era+year regex search, then the post-match body. -/
def convert_japanese_date_to_iso (dateStr : Str) : Option Str :=
  if dateStr = [] then none
  else
    match searchEraYear (pyStrip dateStr) with
    | none => none
    | some (eraText, yearText, remaining) =>
      convertEraMatch eraText yearText remaining

/-! ### Spec-side reformulation of the Era Date Normalizer

The definitions below follow the wording of spec §4.2 (steps 2–5): a fixed
era lookup table over the recognised era tokens, "first year" offset 0 and
otherwise `numeric_year − 1`, month/day as the first one or two numeric
tokens after stripping the parenthetical Gregorian-year aside, calendar
validity, ISO output.  They are compared against the source-shaped
`convert_japanese_date_to_iso` by the C3 refinement theorem. -/

/-- Spec: each recognised era token (long or single-letter form) resolves to
a named era. -/
def specEraTokenTable : List (Str × Str) :=
  [(cs "Reiwa", cs "Reiwa"), (cs "Heisei", cs "Heisei"),
   (cs "Showa", cs "Showa"), (cs "Taisho", cs "Taisho"),
   (cs "Meiji", cs "Meiji"), (cs "R", cs "Reiwa"), (cs "H", cs "Heisei"),
   (cs "S", cs "Showa"), (cs "T", cs "Taisho"), (cs "M", cs "Meiji")]

/-- Spec: resolve a matched era token (case-insensitively) to its era. -/
def specEraOfToken (e : Str) : Option Str :=
  (specEraTokenTable.find? fun p => lowerStr e = lowerStr p.1).map (·.2)

/-- Spec: "first year" maps to offset 0, otherwise offset = numeric_year − 1. -/
def specYearOffset (yearTok : Str) : Int :=
  if lowerStr yearTok = cs "gannen" then 0 else (natOfDigits yearTok : Int) - 1

/-- Spec: the first one or two numeric tokens give month and day, defaulting
to month 1 and day 1 when absent. -/
def specMonthDay : List Str → Nat × Nat
  | [] => (1, 1)
  | [m] => (natOfDigits m, 1)
  | m :: d :: _ => (natOfDigits m, natOfDigits d)

/-- Spec: validity of the constructed calendar date (and of `datetime`'s
year range). -/
def gregorianValid (y : Int) (m d : Nat) : Bool :=
  decide (1 ≤ y) && decide (y ≤ 9999) && decide (1 ≤ m) && decide (m ≤ 12) &&
  decide (1 ≤ d) && decide (d ≤ daysInMonth y.toNat m)

/-- Spec steps 3–5 given the resolved era start year: Gregorian year =
era_start + offset, month/day from the numeric tokens after stripping the
parenthetical aside, validity check, ISO form. -/
def specEraTail (startYear : Int) (yearText remaining : Str) : Option Str :=
  let y : Int := startYear + specYearOffset yearText
  let md := specMonthDay (findNumbers (stripParenYears remaining))
  if gregorianValid y md.1 md.2 then some (isoFormat y.toNat md.1 md.2)
  else none

/-- Spec post-match behaviour: resolve the matched era token through the
token table and the era start-year table, then the tail computation. -/
def specEraMatch (eraText yearText remaining : Str) : Option Str :=
  match specEraOfToken eraText with
  | none => none
  | some eraName =>
    match assocFind ERA_START_YEARS eraName with
    | none => none
    | some startYear => specEraTail startYear yearText remaining

/-- The Era Date Normalizer as worded by spec §4.2: locate era+year, return
null on no match, resolve the era via the fixed table, add the year offset,
take month/day from the numeric tokens after stripping the parenthetical
aside, validate, format as ISO. -/
def eraDateNormalizerSpec (s : Str) : Option Str :=
  match searchEraYear (pyStrip s) with
  | none => none
  | some (eraText, yearText, remaining) =>
    specEraMatch eraText yearText remaining

/-! ## Text Canonicalizer
(`src/coreason_etl_pmda/utils_text.py`, `normalize_text`)

The byte-decoding behaviour of Python codecs is external to the repository;
it is modelled as an explicit `decode` environment mapping an encoding name
and a byte sequence to `some` decoded string or `none` for a decode error.
Unicode NFKC normalization (`unicodedata.normalize("NFKC", ·)`) is modelled
as the per-character compatibility mapping restricted to the character
repertoire exercised by this repository (half-width katakana to full-width
katakana, full-width ASCII to ASCII); characters outside the table are left
unchanged. -/

/-- Input to `normalize_text`: Python's `None`, a `str`, or `bytes`. -/
inductive TextInput where
  | null : TextInput
  | str (s : Str) : TextInput
  | bytes (b : List Nat) : TextInput

/-- Model of the NFKC compatibility mapping on the repertoire used here. -/
def nfkcChar (c : Char) : Str :=
  if c = 'ﾃ' then cs "テ"
  else if c = 'ｽ' then cs "ス"
  else if c = 'ﾄ' then cs "ト"
  else if c = 'ｱ' then cs "ア"
  else if c = 'ｶ' then cs "カ"
  else if isFullwidthDigit c then [Char.ofNat (c.toNat - 0xFF10 + '0'.toNat)]
  else [c]

/-- `unicodedata.normalize("NFKC", s)` on the modelled repertoire. -/
def nfkc (s : Str) : Str := (s.map nfkcChar).flatten

/-- The fixed encoding priority list `[encoding, "cp932", "euc-jp",
"utf-8", "shift_jis"]` from the source. -/
def encodingsToTry (encoding : Str) : List Str :=
  [encoding, cs "cp932", cs "euc-jp", cs "utf-8", cs "shift_jis"]

/-- The source's seen-set deduplication loop (keeps the first occurrence,
preserving order). -/
def dedupSeen (seen : List Str) : List Str → List Str
  | [] => []
  | e :: rest =>
    if e ∈ seen then dedupSeen seen rest
    else e :: dedupSeen (e :: seen) rest

/-- The source's sequential first-successful-decode loop. -/
def firstDecode (decode : Str → List Nat → Option Str) (b : List Nat) :
    List Str → Option Str
  | [] => none
  | enc :: rest =>
    match decode enc b with
    | some d => some d
    | none => firstDecode decode b rest

/-- Embedding of `normalize_text` from `src/coreason_etl_pmda/utils_text.py`:
`None` passes through, `bytes` are decoded by the first encoding of the
deduplicated priority list that succeeds (`None` if all fail), and a decoded
or `str` input is NFKC-normalized and stripped. -/
def normalize_text (decode : Str → List Nat → Option Str)
    (text : TextInput) (encoding : Str := cs "utf-8") : Option Str :=
  match text with
  | .null => none
  | .bytes b =>
    let uniqueEncodings := dedupSeen [] (encodingsToTry encoding)
    match firstDecode decode b uniqueEncodings with
    | none => none
    | some decoded => some (pyStrip (nfkc decoded))
  | .str s => some (pyStrip (nfkc s))

/-- Spec-side deduplication: keep an element and filter its later
duplicates out of the remainder. -/
def dedupKeepFirst (l : List Str) : List Str :=
  match l with
  | [] => []
  | e :: rest => e :: dedupKeepFirst (rest.filter (· ≠ e))
  termination_by l.length
  decreasing_by
    simp only [List.length_cons]
    exact Nat.lt_succ_of_le (List.length_filter_le _ _)

/-! ## Deterministic Identity Generator
(`generate_id` in `src/coreason_etl_pmda/transform_silver.py` and
`src/coreason_etl_pmda/transform_gold_approvals.py`)

`hashlib.sha256(raw.encode("utf-8")).hexdigest()` is embedded as a complete
SHA-256 implementation over byte lists, with 32-bit words as `Nat` reduced
`% 2 ^ 32`. -/

/-- 2^32, the word modulus. -/
def M32 : Nat := 4294967296

/-- Right rotation of a 32-bit word. -/
def rotr (n w : Nat) : Nat := (w >>> n) + (w % (1 <<< n)) * (1 <<< (32 - n))

/-- Bitwise complement within 32 bits. -/
def compl32 (w : Nat) : Nat := 4294967295 - w

/-- SHA-256 σ₀. -/
def smallSigma0 (w : Nat) : Nat := (rotr 7 w) ^^^ (rotr 18 w) ^^^ (w >>> 3)

/-- SHA-256 σ₁. -/
def smallSigma1 (w : Nat) : Nat := (rotr 17 w) ^^^ (rotr 19 w) ^^^ (w >>> 10)

/-- SHA-256 Σ₀. -/
def bigSigma0 (a : Nat) : Nat := (rotr 2 a) ^^^ (rotr 13 a) ^^^ (rotr 22 a)

/-- SHA-256 Σ₁. -/
def bigSigma1 (e : Nat) : Nat := (rotr 6 e) ^^^ (rotr 11 e) ^^^ (rotr 25 e)

/-- SHA-256 Ch. -/
def shaCh (e f g : Nat) : Nat := (e &&& f) ^^^ (compl32 e &&& g)

/-- SHA-256 Maj. -/
def shaMaj (a b c : Nat) : Nat := (a &&& b) ^^^ (a &&& c) ^^^ (b &&& c)

/-- The 64 SHA-256 round constants. -/
def shaK : List Nat :=
  [1116352408, 1899447441, 3049323471, 3921009573, 961987163, 1508970993,
   2453635748, 2870763221, 3624381080, 310598401, 607225278, 1426881987,
   1925078388, 2162078206, 2614888103, 3248222580, 3835390401, 4022224774,
   264347078, 604807628, 770255983, 1249150122, 1555081692, 1996064986,
   2554220882, 2821834349, 2952996808, 3210313671, 3336571891, 3584528711,
   113926993, 338241895, 666307205, 773529912, 1294757372, 1396182291,
   1695183700, 1986661051, 2177026350, 2456956037, 2730485921, 2820302411,
   3259730800, 3345764771, 3516065817, 3600352804, 4094571909, 275423344,
   430227734, 506948616, 659060556, 883997877, 958139571, 1322822218,
   1537002063, 1747873779, 1955562222, 2024104815, 2227730452, 2361852424,
   2428436474, 2756734187, 3204031479, 3329325298]

/-- SHA-256 working state: eight 32-bit words. -/
structure Hash8 where
  a : Nat
  b : Nat
  c : Nat
  d : Nat
  e : Nat
  f : Nat
  g : Nat
  h : Nat

/-- The SHA-256 initial hash value. -/
def shaH0 : Hash8 :=
  ⟨1779033703, 3144134277, 1013904242, 2773480762, 1359893119, 2600822924,
   528734635, 1541459225⟩

/-- `k` bytes of `n`, most significant first. -/
def bytesBE : Nat → Nat → List Nat
  | 0, _ => []
  | k + 1, n => bytesBE k (n >>> 8) ++ [n % 256]

/-- SHA-256 padding: `0x80`, zeros to 56 mod 64, 8-byte bit length. -/
def padMessage (msg : List Nat) : List Nat :=
  let L := msg.length
  msg ++ [0x80] ++ List.replicate ((119 - L % 64) % 64) 0 ++ bytesBE 8 (L * 8)

/-- Worker for `chunk64`; the fuel dominates the number of blocks. -/
def chunk64Fuel : Nat → List Nat → List (List Nat)
  | 0, _ => []
  | _, [] => []
  | fuel + 1, x :: rest =>
    ((x :: rest).take 64) :: chunk64Fuel fuel ((x :: rest).drop 64)

/-- Split a byte list into 64-byte blocks. -/
def chunk64 (l : List Nat) : List (List Nat) := chunk64Fuel l.length l

/-- Big-endian 32-bit words of a byte list. -/
def toWords : List Nat → List Nat
  | b0 :: b1 :: b2 :: b3 :: rest =>
    (((b0 * 256 + b1) * 256 + b2) * 256 + b3) :: toWords rest
  | _ => []

/-- Message-schedule extension, carrying the schedule reversed. -/
def extendSchedule (wrev : List Nat) : Nat → List Nat
  | 0 => wrev
  | n + 1 =>
    let w2 := wrev.getD 1 0
    let w7 := wrev.getD 6 0
    let w15 := wrev.getD 14 0
    let w16 := wrev.getD 15 0
    extendSchedule (((smallSigma1 w2 + w7 + smallSigma0 w15 + w16) % M32) :: wrev) n

/-- The 64-word message schedule of a 16-word block. -/
def schedule (block : List Nat) : List Nat :=
  (extendSchedule block.reverse 48).reverse

/-- One SHA-256 round. -/
def shaRound (st : Hash8) (kw : Nat × Nat) : Hash8 :=
  let t1 := (st.h + bigSigma1 st.e + shaCh st.e st.f st.g + kw.1 + kw.2) % M32
  let t2 := (bigSigma0 st.a + shaMaj st.a st.b st.c) % M32
  ⟨(t1 + t2) % M32, st.a, st.b, st.c, (st.d + t1) % M32, st.e, st.f, st.g⟩

/-- Compress one 64-byte block into the state. -/
def processBlock (st : Hash8) (block : List Nat) : Hash8 :=
  let ws := schedule (toWords block)
  let r := (ws.zip shaK).foldl shaRound st
  ⟨(st.a + r.a) % M32, (st.b + r.b) % M32, (st.c + r.c) % M32,
   (st.d + r.d) % M32, (st.e + r.e) % M32, (st.f + r.f) % M32,
   (st.g + r.g) % M32, (st.h + r.h) % M32⟩

/-- Digest bytes of the final state. -/
def digestBytes (st : Hash8) : List Nat :=
  bytesBE 4 st.a ++ bytesBE 4 st.b ++ bytesBE 4 st.c ++ bytesBE 4 st.d ++
  bytesBE 4 st.e ++ bytesBE 4 st.f ++ bytesBE 4 st.g ++ bytesBE 4 st.h

/-- SHA-256 of a byte list: 32 digest bytes. -/
def sha256 (msg : List Nat) : List Nat :=
  digestBytes ((chunk64 (padMessage msg)).foldl processBlock shaH0)

/-- Lower-case hex digit. -/
def hexDigitChar (n : Nat) : Char :=
  if n < 10 then Char.ofNat ('0'.toNat + n) else Char.ofNat ('a'.toNat + n - 10)

/-- Two-character lower-case hex of one byte (`hexdigest` format). -/
def byteHex (b : Nat) : Str := [hexDigitChar (b / 16 % 16), hexDigitChar (b % 16)]

/-- `hashlib.sha256(...).hexdigest()` of a byte list. -/
def hexOfBytes (l : List Nat) : Str := (l.map byteHex).flatten

/-- UTF-8 encoding of one character (`str.encode("utf-8")`). -/
def utf8Char (c : Char) : List Nat :=
  let n := c.toNat
  if n < 0x80 then [n]
  else if n < 0x800 then [0xC0 + n / 64, 0x80 + n % 64]
  else if n < 0x10000 then
    [0xE0 + n / 4096, 0x80 + (n / 64) % 64, 0x80 + n % 64]
  else
    [0xF0 + n / 262144, 0x80 + (n / 4096) % 64, 0x80 + (n / 64) % 64,
     0x80 + n % 64]

/-- UTF-8 encoding of a string. -/
def utf8Encode (s : Str) : List Nat := (s.map utf8Char).flatten

/-- The pre-hash string `f"PMDA{sid_str}{date_str}"` with missing components
substituted by the empty string, as built by `generate_id`. -/
def rawId (sid date : Option Str) : Str :=
  cs "PMDA" ++ sid.getD [] ++ date.getD []

/-- Embedding of `generate_id` (`transform_silver.py` lines 101-115, and the
identical hash in `transform_gold_approvals.py`): SHA-256 hex digest of the
UTF-8 bytes of `"PMDA" + source id + normalized date`, `None` components
replaced by `""`. -/
def generate_id (approval_id approval_date : Option Str) : Str :=
  hexOfBytes (sha256 (utf8Encode (rawId approval_id approval_date)))

/-! ## Tabular model

A `polars.DataFrame` is modelled as a list of column names plus rows given
as association lists from column name to cell.  A cell is `none` for a null
value.  `cellOf` flattens a missing column and a null cell to `none`, the
way `dict.get` does for the row dictionaries the source produces with
`to_dicts`. -/

/-- A cell: `none` models a null value. -/
abbrev Cell := Option Str

/-- A row: association list from column name to cell. -/
abbrev RowA := List (Str × Cell)

/-- A data frame: column names and rows. -/
structure DF where
  cols : List Str
  rows : List RowA
  deriving DecidableEq

/-- First binding of a column in a row (`none` when the key is absent). -/
def rowGet? : RowA → Str → Option Cell
  | [], _ => none
  | (k, v) :: rest, c => if k = c then some v else rowGet? rest c

/-- Value of a column in a row, flattening a missing key to null. -/
def cellOf (r : RowA) (c : Str) : Cell := (rowGet? r c).join

/-- Python exceptions relevant to the embedded fragments. -/
inductive PyErr where
  | duckdbErr (msg : Str) : PyErr
  | runtimeErr (msg : Str) : PyErr
  | valueErr (msg : Str) : PyErr
  deriving DecidableEq

deriving instance DecidableEq for Except

/-- Rename the right-side non-key columns of a join, suffixing clashes, as
polars does. -/
def joinRenameRight (lcols : List Str) (suffix : Str) (c : Str) : Str :=
  if c ∈ lcols then c ++ suffix else c

/-- A joined right row: key column dropped, clashes suffixed. -/
def rightRowRenamed (lcols : List Str) (rkey suffix : Str) (rr : RowA) : RowA :=
  (rr.filter fun p => decide (p.1 ≠ rkey)).map
    fun p => (joinRenameRight lcols suffix p.1, p.2)

/-- The all-null right row used for unmatched left rows in a left join. -/
def rightNullRow (lcols rcols : List Str) (rkey suffix : Str) : RowA :=
  (rcols.filter fun c => decide (c ≠ rkey)).map
    fun c => (joinRenameRight lcols suffix c, (none : Cell))

/-- Join-key equality: null keys never match (polars default). -/
def keysMatch (lr : RowA) (lkey : Str) (rr : RowA) (rkey : Str) : Bool :=
  match cellOf lr lkey, cellOf rr rkey with
  | some a, some b => decide (a = b)
  | _, _ => false

/-- Columns of a polars equality join. -/
def joinCols (l r : DF) (rkey suffix : Str) : List Str :=
  l.cols ++ (r.cols.filter fun c => decide (c ≠ rkey)).map
    (joinRenameRight l.cols suffix)

/-- `l.join(r, left_on=lkey, right_on=rkey, how="left", suffix=suffix)`:
every left row appears; matched right rows multiply it, an unmatched left
row is padded with nulls. -/
def leftJoin (l r : DF) (lkey rkey suffix : Str) : DF :=
  ⟨joinCols l r rkey suffix,
   (l.rows.map fun lr =>
     match r.rows.filter (fun rr => keysMatch lr lkey rr rkey) with
     | [] => [lr ++ rightNullRow l.cols r.cols rkey suffix]
     | ms => ms.map fun rr => lr ++ rightRowRenamed l.cols rkey suffix rr).flatten⟩

/-- `l.join(r, on=key, how="inner")`: only matched pairs appear. -/
def innerJoin (l r : DF) (lkey rkey suffix : Str) : DF :=
  ⟨joinCols l r rkey suffix,
   (l.rows.map fun lr =>
     (r.rows.filter (fun rr => keysMatch lr lkey rr rkey)).map
       fun rr => lr ++ rightRowRenamed l.cols rkey suffix rr).flatten⟩

/-- The `safe_col` projection: select `(source, alias)` pairs, substituting
null for a source column that is absent from the frame
(`pl.lit(None).alias(...)`). -/
def selectAlias (df : DF) (spec : List (Str × Str)) : DF :=
  ⟨spec.map (·.2),
   df.rows.map fun r =>
     spec.map fun p => (p.2, if p.1 ∈ df.cols then cellOf r p.1 else none)⟩

/-- The target-schema mapping of the Gold adverse-event projection. -/
def jaderGoldSpec : List (Str × Str) :=
  [(cs "id", cs "case_id"), (cs "sex", cs "patient_sex"),
   (cs "age", cs "patient_age_group"),
   (cs "drug_name", cs "primary_suspect_drug"),
   (cs "reaction", cs "reaction_pt"),
   (cs "reporting_year", cs "reporting_year")]

/-! ## Adverse-Event Reconstructor -/

/-- Embedding of `transform_jader_gold` from
`src/coreason_etl_pmda/transformations/gold/transform_gold_jader.py`:
validate the key and characterization columns, filter Drug to Suspected
rows with a non-null id, left-join Demo onto the suspected drugs, left-join
Reaction, project to the curated schema. -/
def transform_jader_gold (demo drug reac : DF) : Except PyErr DF :=
  if (cs "id") ∉ demo.cols then
    .error (.valueErr (cs "demo_df missing key: id"))
  else if (cs "id") ∉ drug.cols then
    .error (.valueErr (cs "drug_df missing key: id"))
  else if (cs "id") ∉ reac.cols then
    .error (.valueErr (cs "reac_df missing key: id"))
  else if (cs "characterization") ∉ drug.cols then
    .error (.valueErr
      (cs "drug_df missing characterization column for filtering suspected drugs"))
  else
    let suspectDrugs : DF :=
      ⟨drug.cols, drug.rows.filter fun r =>
        decide (cellOf r (cs "characterization") = some (cs "Suspected")) &&
        (cellOf r (cs "id")).isSome⟩
    let baseDrug := leftJoin suspectDrugs demo (cs "id") (cs "id") (cs "_demo")
    let final := leftJoin baseDrug reac (cs "id") (cs "id") (cs "_reac")
    .ok (selectAlias final jaderGoldSpec)

/-- Embedding of the legacy `transform_jader_gold` from
`src/coreason_etl_pmda/transform_gold_jader.py` (the version imported by
`pipeline_full.py` and `tests/test_transform_gold_jader.py`): same column
validation, but Demo is the anchor and both joins are inner joins. -/
def transform_jader_gold_legacy (demo drug reac : DF) : Except PyErr DF :=
  if (cs "id") ∉ demo.cols then
    .error (.valueErr (cs "demo_df missing key: id"))
  else if (cs "id") ∉ drug.cols then
    .error (.valueErr (cs "drug_df missing key: id"))
  else if (cs "id") ∉ reac.cols then
    .error (.valueErr (cs "reac_df missing key: id"))
  else if (cs "characterization") ∉ drug.cols then
    .error (.valueErr
      (cs "drug_df missing characterization column for filtering suspected drugs"))
  else
    let suspectDrugs : DF :=
      ⟨drug.cols, drug.rows.filter fun r =>
        decide (cellOf r (cs "characterization") = some (cs "Suspected"))⟩
    let baseDrug := innerJoin demo suspectDrugs (cs "id") (cs "id") (cs "_right")
    let final := innerJoin baseDrug reac (cs "id") (cs "id") (cs "_right")
    .ok (selectAlias final jaderGoldSpec)

/-! ## Schema Mapper and refined-layer normalization
(`src/coreason_etl_pmda/transform_silver.py` `normalize_approvals`,
`src/coreason_etl_pmda/silver/transform_silver_jader.py`
`_normalize_common`) -/

/-- Rename every column (and row key) through a name function. -/
def renameBy (f : Str → Str) (df : DF) : DF :=
  ⟨df.cols.map f, df.rows.map fun r => r.map fun p => (f p.1, p.2)⟩

/-- `re.sub(r"\s+", "", col)`: remove all whitespace from a column name. -/
def stripWsName (c : Str) : Str := c.filter fun ch => !isPySpace ch

/-- Rename through a static mapping: a column that is a key of the mapping
becomes its target, anything else is unchanged. -/
def applyMapping (mapping : List (Str × Str)) (c : Str) : Str :=
  match mapping.find? fun p => decide (p.1 = c) with
  | some p => p.2
  | none => c

/-- `df.with_columns(pl.lit(None).alias(c))` for a new column `c`. -/
def addNullCol (df : DF) (c : Str) : DF :=
  ⟨df.cols ++ [c], df.rows.map fun r => r ++ [(c, (none : Cell))]⟩

/-- Add each listed column as null when it is absent. -/
def fillMissing (df : DF) (want : List Str) : DF :=
  want.foldl (fun acc c => if c ∈ acc.cols then acc else addNullCol acc c) df

/-- Row-level worker of `mapCol`: transform the bindings of one column. -/
def mapColRow (c : Str) (f : Cell → Cell) (r : RowA) : RowA :=
  r.map fun p => if p.1 = c then (p.1, f p.2) else p

/-- `df.with_columns(pl.col(c).map_elements(f))`: transform one column in
place. -/
def mapCol (df : DF) (c : Str) (f : Cell → Cell) : DF :=
  ⟨df.cols, df.rows.map (mapColRow c f)⟩

/-- The cell-level Text Canonicalizer on an already-`str` (or null) cell:
`normalize_text` with no bytes involved. -/
def normTextCell (v : Cell) : Cell :=
  match v with
  | none => none
  | some s => some (pyStrip (nfkc s))

/-- `COLUMN_MAPPING` from `transform_silver.py`. -/
def COLUMN_MAPPING : List (Str × Str) :=
  [(cs "承認番号", cs "approval_id"), (cs "承認年月日", cs "approval_date"),
   (cs "販売名", cs "brand_name_jp"), (cs "一般的名称", cs "generic_name_jp"),
   (cs "申請者氏名", cs "applicant_name_jp"), (cs "薬効分類名", cs "indication")]

/-- `DEMO_MAPPING` from `transform_silver_jader.py`. -/
def DEMO_MAPPING : List (Str × Str) :=
  [(cs "識別番号", cs "id"), (cs "性別", cs "sex"), (cs "年齢", cs "age"),
   (cs "報告年度", cs "reporting_year")]

/-- `DRUG_MAPPING` from `transform_silver_jader.py`. -/
def DRUG_MAPPING : List (Str × Str) :=
  [(cs "識別番号", cs "id"), (cs "医薬品（一般名）", cs "drug_name"),
   (cs "被疑薬等区分", cs "characterization")]

/-- `REAC_MAPPING` from `transform_silver_jader.py`. -/
def REAC_MAPPING : List (Str × Str) :=
  [(cs "識別番号", cs "id"), (cs "有害事象", cs "reaction")]

/-- The columns `_normalize_common` text-normalizes. -/
def jaderNormCols : List Str :=
  [cs "sex", cs "age", cs "drug_name", cs "characterization", cs "reaction",
   cs "id"]

/-- Embedding of `_normalize_common` from
`src/coreason_etl_pmda/silver/transform_silver_jader.py`: strip whitespace
from headers, rename through the static mapping, raise on a missing
critical `id` column, synthesize the other missing mapped columns as null,
then text-normalize the known columns. -/
def normalizeCommon (df : DF) (mapping : List (Str × Str)) : Except PyErr DF :=
  let df1 := renameBy stripWsName df
  let df2 := renameBy (applyMapping mapping) df1
  let missing := (mapping.map (·.2)).filter fun en => decide (en ∉ df2.cols)
  if (cs "id") ∈ missing then
    .error (.valueErr (cs "Missing critical column id (mapped from 識別番号)"))
  else
    let df3 := missing.foldl addNullCol df2
    let toNorm := df3.cols.filter fun c => decide (c ∈ jaderNormCols)
    .ok (toNorm.foldl (fun acc c => mapCol acc c normTextCell) df3)

/-- The per-cell wrapper `norm_str` of `normalize_approvals`:
`normalize_text(s) if s else None` — falsy (null or empty) cells skip
normalization and become null. -/
def normStrCell (v : Cell) : Cell :=
  match v with
  | none => none
  | some s => if s = [] then none else some (pyStrip (nfkc s))

/-- The per-cell wrapper `norm_date` of `normalize_approvals`:
`convert_japanese_date_to_iso(s) if s else None`. -/
def normDateCell (v : Cell) : Cell :=
  match v with
  | none => none
  | some s => if s = [] then none else convert_japanese_date_to_iso s

/-- The text columns `normalize_approvals` normalizes. -/
def approvalsTextCols : List Str :=
  [cs "brand_name_jp", cs "generic_name_jp", cs "applicant_name_jp",
   cs "indication", cs "approval_id"]

/-- The public fields of `SilverApprovalSchema`
(`src/coreason_etl_pmda/silver/schemas.py`); every field is optional, extra
keys are ignored, and the underscore-private `_translation_status` is not a
pydantic field, so `model_dump` projects a row to exactly this set. -/
def silverApprovalFields : List Str :=
  [cs "approval_id", cs "approval_date", cs "brand_name_jp",
   cs "generic_name_jp", cs "applicant_name_jp", cs "indication",
   cs "coreason_id", cs "application_type", cs "generic_name_en",
   cs "review_report_url"]

/-- Project a row to a field list, nulling absent fields (the pydantic
validate-and-dump round trip of `normalize_approvals`). -/
def projectRow (fields : List Str) (r : RowA) : RowA :=
  fields.map fun c => (c, cellOf r c)

/-- Embedding of `normalize_approvals` from
`src/coreason_etl_pmda/transform_silver.py`: rename through
`COLUMN_MAPPING`, synthesize every missing expected column (including
`approval_id`) as null, normalize text and date cells through the falsy-
skipping wrappers, attach the `coreason_id` digest, and validate/project
through `SilverApprovalSchema`. -/
def normalize_approvals (df : DF) : DF :=
  let df1 := renameBy (applyMapping COLUMN_MAPPING) df
  let expected := (COLUMN_MAPPING.map (·.2)) ++ [cs "application_type"]
  let df2 := fillMissing df1 expected
  let df3 := approvalsTextCols.foldl
    (fun acc c => if c ∈ acc.cols then mapCol acc c normStrCell else acc) df2
  let df4 :=
    if (cs "approval_date") ∈ df3.cols then
      mapCol df3 (cs "approval_date") normDateCell
    else df3
  let df5 : DF :=
    ⟨df4.cols ++ [cs "coreason_id"],
     df4.rows.map fun r =>
       r ++ [(cs "coreason_id",
              some (generate_id (cellOf r (cs "approval_id"))
                                (cellOf r (cs "approval_date"))))]⟩
  ⟨silverApprovalFields, df5.rows.map (projectRow silverApprovalFields)⟩

/-! ## Reference Bridge
(`jan_bridge_lookup`, `jan_bridge_ai_fallback` and `call_deepseek` in
`src/coreason_etl_pmda/transform_silver.py`, and the credential conditional
of `PipelineOrchestrator._run_silver_approvals` in `pipeline_full.py`)

The external translation service is modelled as an environment
`api : Str → Str → Option Str` returning `none` for an exception or
timeout and `some content` for an HTTP response body. -/

/-- Set a column value in a row, appending the binding when absent
(dictionary assignment). -/
def setCell (r : RowA) (c : Str) (v : Cell) : RowA :=
  if (rowGet? r c).isSome then
    r.map fun p => if p.1 = c then (p.1, v) else p
  else r ++ [(c, v)]

/-- Replace a column by a computed value, or append it
(`with_columns(expr.alias(c))`). -/
def setOrAddCol (df : DF) (c : Str) (f : RowA → Cell) : DF :=
  ⟨if c ∈ df.cols then df.cols else df.cols ++ [c],
   df.rows.map fun r => setCell r c (f r)⟩

/-- Embedding of `jan_bridge_lookup`: left-join the reference table on
`generic_name_jp == jan_name_jp`, then coalesce `inn_name_en` over
`jan_name_en` into `generic_name_en`. -/
def jan_bridge_lookup (approvals jan : DF) : Except PyErr DF :=
  if (cs "generic_name_jp") ∉ approvals.cols then
    .error (.valueErr (cs "approvals_df must have generic_name_jp"))
  else if (cs "jan_name_jp") ∉ jan.cols then
    .error (.valueErr (cs "jan_df must have jan_name_jp"))
  else
    let joined := leftJoin approvals jan (cs "generic_name_jp")
      (cs "jan_name_jp") (cs "_right")
    .ok (setOrAddCol joined (cs "generic_name_en") fun r =>
      match cellOf r (cs "inn_name_en") with
      | some v => some v
      | none => cellOf r (cs "jan_name_en"))

/-- Embedding of `call_deepseek`: `None` without a credential; with one, an
exception or timeout (`api ... = none`) or an empty (falsy) response body
yields `None`, otherwise the stripped content. -/
def call_deepseek (apiKey : Option Str) (api : Str → Str → Option Str)
    (genericNameJp brandNameJp : Str) : Option Str :=
  match apiKey with
  | none => none
  | some _ =>
    match api genericNameJp brandNameJp with
    | none => none
    | some content => if content = [] then none else some (pyStrip content)

/-- The row-level `translate` closure of `jan_bridge_ai_fallback`: a falsy
`generic_name_jp` short-circuits to `None`; a falsy `brand_name_jp` is
passed as the empty string. -/
def translateRow (call : Str → Str → Option Str) (r : RowA) : Option Str :=
  match cellOf r (cs "generic_name_jp") with
  | none => none
  | some g =>
    if g = [] then none
    else
      call g
        (match cellOf r (cs "brand_name_jp") with
         | none => []
         | some b => b)

/-- Embedding of `jan_bridge_ai_fallback`: if no row is missing
`generic_name_en` the frame is returned unmodified; otherwise every row is
stamped — unresolved rows are translated (status `failed` on a null result,
`ai_translated` otherwise) and resolved rows get `lookup_success`. -/
def jan_bridge_ai_fallback (call : Str → Str → Option Str) (df : DF) : DF :=
  if df.rows.all (fun r => (cellOf r (cs "generic_name_en")).isSome) then df
  else
    ⟨if (cs "_translation_status") ∈ df.cols then df.cols
      else df.cols ++ [cs "_translation_status"],
     df.rows.map fun r =>
       if (cellOf r (cs "generic_name_en")).isSome then
         setCell r (cs "_translation_status") (some (cs "lookup_success"))
       else
         let trans := translateRow call r
         setCell (setCell r (cs "generic_name_en") trans)
           (cs "_translation_status")
           (some (if trans.isSome then cs "ai_translated" else cs "failed"))⟩

/-- The credential conditional of `_run_silver_approvals`
(`pipeline_full.py` lines 110–118): with a key, run the fallback; without
one, stamp the whole `_translation_status` column as `skipped_no_key`. -/
def runTranslationStage (apiKey : Option Str)
    (api : Str → Str → Option Str) (df : DF) : DF :=
  if apiKey.isSome then jan_bridge_ai_fallback (call_deepseek apiKey api) df
  else if (cs "_translation_status") ∈ df.cols then df
  else
    ⟨df.cols ++ [cs "_translation_status"],
     df.rows.map fun r =>
       r ++ [(cs "_translation_status", some (cs "skipped_no_key"))]⟩

/-! ## Curated approvals projection
(`src/coreason_etl_pmda/transform_gold_approvals.py`,
`transform_approvals_gold`) -/

/-- The final column set of the curated approvals table. -/
def goldFinalCols : List Str :=
  [cs "coreason_id", cs "approval_id", cs "application_type",
   cs "brand_name_jp", cs "generic_name_jp", cs "generic_name_en",
   cs "applicant_name_jp", cs "approval_date", cs "indication",
   cs "review_report_url"]

/-- Embedding of `transform_approvals_gold`: require the core columns,
normalize the text and date columns (absent optional ones become null),
attach `coreason_id`, fill the remaining target columns with null and
project. -/
def transform_approvals_gold (df : DF) : Except PyErr DF :=
  match [cs "approval_id", cs "brand_name_jp", cs "generic_name_jp",
         cs "approval_date"].find? (fun c => decide (c ∉ df.cols)) with
  | some c => .error (.valueErr (cs "Missing required column: " ++ c))
  | none =>
    let df1 := mapCol df (cs "brand_name_jp") normStrCell
    let df2 := mapCol df1 (cs "generic_name_jp") normStrCell
    let df3 :=
      if (cs "applicant_name_jp") ∈ df.cols then
        mapCol df2 (cs "applicant_name_jp") normStrCell
      else addNullCol df2 (cs "applicant_name_jp")
    let df4 :=
      if (cs "indication") ∈ df.cols then
        mapCol df3 (cs "indication") normStrCell
      else addNullCol df3 (cs "indication")
    let df5 := mapCol df4 (cs "approval_date") normDateCell
    let df6 : DF :=
      ⟨df5.cols ++ [cs "coreason_id"],
       df5.rows.map fun r =>
         r ++ [(cs "coreason_id",
                some (generate_id (cellOf r (cs "approval_id"))
                                  (cellOf r (cs "approval_date"))))]⟩
    let df7 := fillMissing df6 goldFinalCols
    .ok ⟨goldFinalCols, df7.rows.map (projectRow goldFinalCols)⟩

/-! ## Layer Orchestrator fragments
(`src/coreason_etl_pmda/pipeline_full.py`)

The persistence backend is modelled by environments
`read : Str → Except PyErr DF` (a `con.sql(...)` that may raise
`duckdb.Error`) and `write : Str → DF → Except PyErr Unit` (the
register/`CREATE OR REPLACE TABLE` sequence of `_write_table`). -/

/-- `PipelineOrchestrator._write_table`: the `try` block logs and re-raises
on failure, so the write outcome passes through unchanged. -/
def writeTable (write : Str → DF → Except PyErr Unit) (name : Str)
    (df : DF) : Except PyErr Unit :=
  write name df

/-- An `except duckdb.Error: logger.warning(...)` handler: swallows duckdb
errors, propagates everything else. -/
def catchDuck (x : Except PyErr Unit) : Except PyErr Unit :=
  match x with
  | .error (.duckdbErr _) => .ok ()
  | other => other

/-- The approvals half of `run_gold`, exactly the statements inside its
`try`: read Silver approvals, transform when non-empty, write the curated
table. -/
def goldApprovalsBlock (read : Str → Except PyErr DF)
    (write : Str → DF → Except PyErr Unit) : Except PyErr Unit := do
  let silver ← read (cs "pmda_silver.silver_approvals")
  if silver.rows.isEmpty then pure ()
  else do
    let gold ← transform_approvals_gold silver
    writeTable write (cs "pmda_gold.pmda_approvals") gold

/-- The JADER half of `run_gold`, the statements inside its `try`; note that
the module binding in `pipeline_full.py` picks the legacy reconstructor. -/
def goldJaderBlock (read : Str → Except PyErr DF)
    (write : Str → DF → Except PyErr Unit) : Except PyErr Unit := do
  let demo ← read (cs "pmda_silver.silver_jader_demo")
  let drug ← read (cs "pmda_silver.silver_jader_drug")
  let reac ← read (cs "pmda_silver.silver_jader_reac")
  if !demo.rows.isEmpty && !drug.rows.isEmpty && !reac.rows.isEmpty then do
    let gold ← transform_jader_gold_legacy demo drug reac
    writeTable write (cs "pmda_gold.pmda_adverse_events") gold
  else pure ()

/-- `PipelineOrchestrator.run_gold`: each half runs inside
`try ... except duckdb.Error: logger.warning(...)`, then the run
continues. -/
def runGold (read : Str → Except PyErr DF)
    (write : Str → DF → Except PyErr Unit) : Except PyErr Unit := do
  catchDuck (goldApprovalsBlock read write)
  catchDuck (goldJaderBlock read write)

/-- `PipelineOrchestrator._run_silver_approvals`: only the two Bronze reads
sit inside `try ... except duckdb.Error`; the transformation chain and the
final `_write_table` are outside it, so their exceptions propagate. -/
def runSilverApprovals (read : Str → Except PyErr DF)
    (write : Str → DF → Except PyErr Unit) (apiKey : Option Str)
    (api : Str → Str → Option Str) : Except PyErr Unit :=
  match (do
      let a ← read (cs "pmda_bronze.bronze_approvals")
      let j ← read (cs "pmda_bronze.bronze_ref_jan_inn")
      pure (a, j) : Except PyErr (DF × DF)) with
  | .error (.duckdbErr _) => .ok ()
  | .error e => .error e
  | .ok (approvals, jan) =>
    if approvals.rows.isEmpty then .ok ()
    else do
      let silver := normalize_approvals approvals
      let silver2 ←
        if jan.rows.isEmpty then
          pure (setOrAddCol silver (cs "generic_name_en") fun _ => none)
        else jan_bridge_lookup silver jan
      let silver3 := runTranslationStage apiKey api silver2
      writeTable write (cs "pmda_silver.silver_approvals") silver3

/-! ## Concrete fixtures used by the evaluation theorems -/

/-- Rows of a transformation result (empty on error). -/
def rowsOf : Except PyErr DF → List RowA
  | .ok df => df.rows
  | .error _ => []

/-- Number of output rows carrying a given `case_id`. -/
def countCaseId (rows : List RowA) (v : Str) : Nat :=
  (rows.filter fun r => decide (cellOf r (cs "case_id") = some v)).length

/-- Demo fixture: cases 1 and 3 only (case 2 is an orphan). -/
def demoFix : DF :=
  ⟨[cs "id", cs "sex", cs "age", cs "reporting_year"],
   [[(cs "id", some (cs "1")), (cs "sex", some (cs "M")),
     (cs "age", some (cs "20s")), (cs "reporting_year", some (cs "2020"))],
    [(cs "id", some (cs "3")), (cs "sex", some (cs "F")),
     (cs "age", some (cs "30s")), (cs "reporting_year", some (cs "2021"))]]⟩

/-- Drug fixture: one Suspected drug for each of cases 1, 2 and 3. -/
def drugFix : DF :=
  ⟨[cs "id", cs "drug_name", cs "characterization"],
   [[(cs "id", some (cs "1")), (cs "drug_name", some (cs "Drug A")),
     (cs "characterization", some (cs "Suspected"))],
    [(cs "id", some (cs "2")), (cs "drug_name", some (cs "Drug B")),
     (cs "characterization", some (cs "Suspected"))],
    [(cs "id", some (cs "3")), (cs "drug_name", some (cs "Drug C")),
     (cs "characterization", some (cs "Suspected"))]]⟩

/-- Reaction fixture: reactions for cases 1 and 2 only (case 3 has none). -/
def reacFix : DF :=
  ⟨[cs "id", cs "reaction"],
   [[(cs "id", some (cs "1")), (cs "reaction", some (cs "Headache"))],
    [(cs "id", some (cs "2")), (cs "reaction", some (cs "Nausea"))]]⟩

/-- Identity-generator inputs exercised by the repository tests
(`tests/test_transform_silver.py`, `tests/test_transform_gold_approvals.py`,
`tests/test_edge_cases.py`), extended with the missing-component
substitutions. -/
def testedIdDomain : List (Option Str × Option Str) :=
  [(some (cs "123"), some (cs "2020-01-01")),
   (some (cs "123"), some (cs "2020-05-01")),
   (some (cs "A"), some (cs "2020-01-01")),
   (some (cs "12345"), some (cs "2020-05-01")),
   (none, some (cs "2020-01-01")),
   (some (cs "123"), none),
   (none, none)]

/-- A raw approvals batch that lacks the record-identifier column
`承認番号` entirely. -/
def approvalsNoId : DF :=
  ⟨[cs "販売名"], [[(cs "販売名", some (cs "Brand A"))]]⟩

/-- A raw approvals batch whose brand name is whitespace only and whose
indication is the empty string. -/
def approvalsWhitespace : DF :=
  ⟨[cs "承認番号", cs "販売名", cs "薬効分類名"],
   [[(cs "承認番号", some (cs "123")), (cs "販売名", some (cs " ")),
     (cs "薬効分類名", some [])]]⟩

/-- A bridge batch with one row resolved by the Stage 1 lookup and one row
still unresolved. -/
def bridgeFix : DF :=
  ⟨[cs "generic_name_jp", cs "brand_name_jp", cs "generic_name_en"],
   [[(cs "generic_name_jp", some (cs "DrugY")),
     (cs "brand_name_jp", some (cs "BrandY")),
     (cs "generic_name_en", some (cs "DrugY EN"))],
    [(cs "generic_name_jp", some (cs "DrugX")),
     (cs "brand_name_jp", some (cs "BrandX")),
     (cs "generic_name_en", none)]]⟩

/-- A one-row Bronze approvals table, as in the pipeline tests. -/
def bronzeApprovalsFix : DF :=
  ⟨[cs "承認番号", cs "承認年月日", cs "販売名", cs "一般的名称",
    cs "申請者氏名"],
   [[(cs "承認番号", some (cs "1")), (cs "承認年月日", some (cs "R2.1.1")),
     (cs "販売名", some (cs "Brand")), (cs "一般的名称", some (cs "Generic")),
     (cs "申請者氏名", some (cs "App"))]]⟩

/-- An empty reference table with the JAN bridge columns. -/
def emptyJanFix : DF :=
  ⟨[cs "jan_name_jp", cs "jan_name_en", cs "inn_name_en"], []⟩

/-- A one-row Silver approvals table holding the curated-projection inputs. -/
def silverApprovalsFix : DF :=
  ⟨silverApprovalFields,
   [[(cs "approval_id", some (cs "1")),
     (cs "approval_date", some (cs "2020-01-01")),
     (cs "brand_name_jp", some (cs "Brand")),
     (cs "generic_name_jp", some (cs "Generic")),
     (cs "applicant_name_jp", some (cs "App")), (cs "indication", none),
     (cs "coreason_id", none), (cs "application_type", none),
     (cs "generic_name_en", none), (cs "review_report_url", none)]]⟩

/-- The persistence read environment of the orchestrator evaluation: Bronze
approvals and the (empty) reference table exist, Silver approvals exists
and is non-empty, the Silver JADER tables are missing (`duckdb.Error`). -/
def readFix (name : Str) : Except PyErr DF :=
  if name = cs "pmda_bronze.bronze_approvals" then .ok bronzeApprovalsFix
  else if name = cs "pmda_bronze.bronze_ref_jan_inn" then .ok emptyJanFix
  else if name = cs "pmda_silver.silver_approvals" then .ok silverApprovalsFix
  else .error (.duckdbErr (cs "Catalog Error"))

/-- A write environment whose table writes fail with a `duckdb.Error`. -/
def writeDuckFail : Str → DF → Except PyErr Unit :=
  fun _ _ => .error (.duckdbErr (cs "IO Error: disk full"))

/-- A write environment whose table writes fail with a non-duckdb error. -/
def writeRuntimeFail : Str → DF → Except PyErr Unit :=
  fun _ _ => .error (.runtimeErr (cs "Disk Full"))

/-! # Theorems -/

/-! ## Character-arithmetic helpers -/

theorem charToNat_inj (c d : Char) (h : c.toNat = d.toNat) : c = d := by
  cases c
  cases d
  simp only [Char.toNat] at h
  congr 1
  exact UInt32.ext h

theorem charToNat_ofNat (n : Nat) (h : n < 0xD800) :
    (Char.ofNat n).toNat = n := by
  have hv : n.isValidChar := Or.inl h
  simp [Char.ofNat, Char.toNat, Char.ofNatAux, hv, UInt32.toNat]

theorem toUpper_of_toLower (c lo up : Char) (h97 : 97 ≤ lo.toNat)
    (h122 : lo.toNat ≤ 122) (hsum : up.toNat + 32 = lo.toNat)
    (h : toLowerChar c = lo) : toUpperChar c = up := by
  unfold toLowerChar at h
  by_cases hb : ('A' ≤ c ∧ c ≤ 'Z')
  · rw [if_pos (by simp [hb.1, hb.2])] at h
    have hz : c.toNat ≤ 90 := hb.2
    have hvalid : c.toNat + 32 < 0xD800 := by omega
    have htn : c.toNat + 32 = lo.toNat := by
      have := congrArg Char.toNat h
      rwa [charToNat_ofNat _ hvalid] at this
    have hcup : c = up := charToNat_inj _ _ (by omega)
    subst hcup
    have hnot : ¬ ('a' ≤ c) := by
      intro hle
      have h1 : 97 ≤ c.toNat := hle
      omega
    unfold toUpperChar
    rw [if_neg (by simp [hnot])]
  · rw [if_neg (by
      intro hcond
      rcases Bool.and_eq_true .. |>.mp hcond with ⟨h1, h2⟩
      exact hb ⟨of_decide_eq_true h1, of_decide_eq_true h2⟩)] at h
    subst h
    have ha : 'a' ≤ c := h97
    have hz : c ≤ 'z' := h122
    unfold toUpperChar
    rw [if_pos (by simp [ha, hz])]
    have hvalid : c.toNat - 32 < 0xD800 := by omega
    exact charToNat_inj _ _ (by rw [charToNat_ofNat _ hvalid]; omega)

/-! ## Era Date Normalizer: scanner soundness and refinement (C3) -/

theorem ciMatch_lower (p : Str) :
    ∀ s took rem, ciMatch p s = some (took, rem) →
      lowerStr took = lowerStr p := by
  induction p with
  | nil =>
    intro s took rem h
    simp only [ciMatch, Option.some.injEq, Prod.mk.injEq] at h
    rw [← h.1]
  | cons pc ps ih =>
    intro s took rem h
    cases s with
    | nil => simp [ciMatch] at h
    | cons c rest =>
      simp only [ciMatch] at h
      by_cases hc : toLowerChar c = toLowerChar pc
      · rw [if_pos hc] at h
        cases hm : ciMatch ps rest with
        | none => rw [hm] at h; simp at h
        | some pr =>
          obtain ⟨took2, rem2⟩ := pr
          rw [hm] at h
          simp only [Option.some.injEq, Prod.mk.injEq] at h
          rw [← h.1]
          simp only [lowerStr, List.map_cons]
          rw [hc]
          have := ih rest took2 rem2 hm
          simp only [lowerStr] at this
          rw [this]
      · rw [if_neg hc] at h
        simp at h

theorem matchEraYearAt_go_sound (s : Str) (alts : List Str) (e y r : Str)
    (h : matchEraYearAt.go s alts = some (e, y, r)) :
    ∃ alt ∈ alts, ∃ rem, ciMatch alt s = some (e, rem) := by
  induction alts with
  | nil => simp [matchEraYearAt.go] at h
  | cons alt rest ih =>
    simp only [matchEraYearAt.go] at h
    split at h
    · obtain ⟨a, ha, rem, hr⟩ := ih h
      exact ⟨a, List.mem_cons_of_mem _ ha, rem, hr⟩
    · rename_i eraText afterEra hm
      split at h
      · obtain ⟨a, ha, rem, hr⟩ := ih h
        exact ⟨a, List.mem_cons_of_mem _ ha, rem, hr⟩
      · rename_i c cr hws
        split at h
        · simp only [Option.some.injEq, Prod.mk.injEq] at h
          exact ⟨alt, List.mem_cons_self .., afterEra, by rw [hm, h.1]⟩
        · split at h
          · rename_i yt rm hg
            simp only [Option.some.injEq, Prod.mk.injEq] at h
            exact ⟨alt, List.mem_cons_self .., afterEra, by rw [hm, h.1]⟩
          · obtain ⟨a, ha, rem, hr⟩ := ih h
            exact ⟨a, List.mem_cons_of_mem _ ha, rem, hr⟩

theorem searchEraYear_sound (s : Str) :
    ∀ e y r, searchEraYear s = some (e, y, r) →
      ∃ alt ∈ eraAlternatives, lowerStr e = lowerStr alt := by
  induction s with
  | nil => intro e y r h; simp [searchEraYear] at h
  | cons c rest ih =>
    intro e y r h
    simp only [searchEraYear] at h
    cases hm : matchEraYearAt (c :: rest) with
    | some m =>
      rw [hm] at h
      obtain ⟨e2, y2, r2⟩ := m
      simp only [Option.some.injEq, Prod.mk.injEq] at h
      obtain ⟨he, _, _⟩ := h
      subst he
      unfold matchEraYearAt at hm
      obtain ⟨alt, ha, rem, hr⟩ :=
        matchEraYearAt_go_sound (c :: rest) eraAlternatives _ _ _ hm
      exact ⟨alt, ha, ciMatch_lower alt _ _ _ hr⟩
    | none =>
      rw [hm] at h
      exact ih e y r h

theorem pyDate_eq_spec (y : Int) (m d : Nat) :
    pyDate y m d = if gregorianValid y m d then some (y.toNat, m, d)
      else none := by
  simp only [pyDate, gregorianValid]
  by_cases h1 : 1 ≤ y <;> by_cases h2 : y ≤ 9999 <;> by_cases h3 : 1 ≤ m <;>
    by_cases h4 : m ≤ 12 <;> by_cases h5 : 1 ≤ d <;>
    by_cases h6 : d ≤ daysInMonth y.toNat m <;>
    simp [h1, h2, h3, h4, h5, h6]

theorem mdSelect_eq_spec (ns : List Str) :
    (if ns.length ≥ 2 then
       (natOfDigits (ns.headD []), natOfDigits (ns.tail.headD []))
     else if ns.length = 1 then (natOfDigits (ns.headD []), 1)
     else (1, 1)) = specMonthDay ns := by
  match ns with
  | [] => rfl
  | [m] => rfl
  | m :: d :: rest =>
    have h2 : (m :: d :: rest).length ≥ 2 := by
      simp only [List.length_cons]
      omega
    rw [if_pos h2]
    rfl

theorem eraTail_eq_spec (startYear : Int) (y r : Str) :
    convertEraTail startYear y r = specEraTail startYear y r := by
  simp only [convertEraTail, specEraTail, specYearOffset]
  rw [mdSelect_eq_spec, pyDate_eq_spec]
  cases hgv : gregorianValid
      (startYear +
        if lowerStr y = cs "gannen" then 0 else (natOfDigits y : Int) - 1)
      (specMonthDay (findNumbers (stripParenYears r))).1
      (specMonthDay (findNumbers (stripParenYears r))).2 <;>
    simp [hgv]

theorem eraMatch_eq_spec (e y r : Str)
    (ha : ∃ alt ∈ eraAlternatives, lowerStr e = lowerStr alt) :
    convertEraMatch e y r = specEraMatch e y r := by
  obtain ⟨alt, hmem, hlow⟩ := ha
  simp only [eraAlternatives, List.mem_cons, List.not_mem_nil, or_false] at hmem
  rcases hmem with h|h|h|h|h|h|h|h|h|h <;> subst h
  · have hlow2 : lowerStr e = 'r' :: cs "eiwa" := by rw [hlow]; decide
    cases e with
    | nil => exact absurd hlow2 (by simp [lowerStr])
    | cons c0 e1 =>
      simp only [lowerStr, List.map_cons] at hlow2
      injection hlow2 with h0 h1
      have hup : toUpperChar c0 = 'R' :=
        toUpper_of_toLower c0 'r' 'R' (by decide) (by decide) (by decide) h0
      have hle : lowerStr (c0 :: e1) = cs "reiwa" := by
        simp only [lowerStr, List.map_cons, h0, h1]
        decide
      have hspec : specEraOfToken (c0 :: e1) = some (cs "Reiwa") := by
        unfold specEraOfToken
        simp only [hle]
        decide
      have hfind : assocFind ERA_START_YEARS (cs "Reiwa") = some 2019 := rfl
      simp only [convertEraMatch, specEraMatch, hspec, capitalizeStr, hup]
      rw [show startsWithChar ('R' :: lowerStr e1) 'R' = true from rfl]
      simp [hfind, eraTail_eq_spec]
  · have hlow2 : lowerStr e = 'h' :: cs "eisei" := by rw [hlow]; decide
    cases e with
    | nil => exact absurd hlow2 (by simp [lowerStr])
    | cons c0 e1 =>
      simp only [lowerStr, List.map_cons] at hlow2
      injection hlow2 with h0 h1
      have hup : toUpperChar c0 = 'H' :=
        toUpper_of_toLower c0 'h' 'H' (by decide) (by decide) (by decide) h0
      have hle : lowerStr (c0 :: e1) = cs "heisei" := by
        simp only [lowerStr, List.map_cons, h0, h1]
        decide
      have hspec : specEraOfToken (c0 :: e1) = some (cs "Heisei") := by
        unfold specEraOfToken
        simp only [hle]
        decide
      have hfind : assocFind ERA_START_YEARS (cs "Heisei") = some 1989 := rfl
      simp only [convertEraMatch, specEraMatch, hspec, capitalizeStr, hup]
      rw [show startsWithChar ('H' :: lowerStr e1) 'R' = false from rfl]
      rw [show startsWithChar ('H' :: lowerStr e1) 'H' = true from rfl]
      simp [hfind, eraTail_eq_spec]
  · have hlow2 : lowerStr e = 's' :: cs "howa" := by rw [hlow]; decide
    cases e with
    | nil => exact absurd hlow2 (by simp [lowerStr])
    | cons c0 e1 =>
      simp only [lowerStr, List.map_cons] at hlow2
      injection hlow2 with h0 h1
      have hup : toUpperChar c0 = 'S' :=
        toUpper_of_toLower c0 's' 'S' (by decide) (by decide) (by decide) h0
      have hle : lowerStr (c0 :: e1) = cs "showa" := by
        simp only [lowerStr, List.map_cons, h0, h1]
        decide
      have hspec : specEraOfToken (c0 :: e1) = some (cs "Showa") := by
        unfold specEraOfToken
        simp only [hle]
        decide
      have hfind : assocFind ERA_START_YEARS (cs "Showa") = some 1926 := rfl
      simp only [convertEraMatch, specEraMatch, hspec, capitalizeStr, hup]
      rw [show startsWithChar ('S' :: lowerStr e1) 'R' = false from rfl]
      rw [show startsWithChar ('S' :: lowerStr e1) 'H' = false from rfl]
      rw [show startsWithChar ('S' :: lowerStr e1) 'S' = true from rfl]
      simp [hfind, eraTail_eq_spec]
  · have hlow2 : lowerStr e = 't' :: cs "aisho" := by rw [hlow]; decide
    cases e with
    | nil => exact absurd hlow2 (by simp [lowerStr])
    | cons c0 e1 =>
      simp only [lowerStr, List.map_cons] at hlow2
      injection hlow2 with h0 h1
      have hup : toUpperChar c0 = 'T' :=
        toUpper_of_toLower c0 't' 'T' (by decide) (by decide) (by decide) h0
      have hle : lowerStr (c0 :: e1) = cs "taisho" := by
        simp only [lowerStr, List.map_cons, h0, h1]
        decide
      have hspec : specEraOfToken (c0 :: e1) = some (cs "Taisho") := by
        unfold specEraOfToken
        simp only [hle]
        decide
      have hfind : assocFind ERA_START_YEARS (cs "Taisho") = some 1912 := rfl
      simp only [convertEraMatch, specEraMatch, hspec, capitalizeStr, hup]
      rw [show startsWithChar ('T' :: lowerStr e1) 'R' = false from rfl]
      rw [show startsWithChar ('T' :: lowerStr e1) 'H' = false from rfl]
      rw [show startsWithChar ('T' :: lowerStr e1) 'S' = false from rfl]
      rw [show startsWithChar ('T' :: lowerStr e1) 'T' = true from rfl]
      simp [hfind, eraTail_eq_spec]
  · have hlow2 : lowerStr e = 'm' :: cs "eiji" := by rw [hlow]; decide
    cases e with
    | nil => exact absurd hlow2 (by simp [lowerStr])
    | cons c0 e1 =>
      simp only [lowerStr, List.map_cons] at hlow2
      injection hlow2 with h0 h1
      have hup : toUpperChar c0 = 'M' :=
        toUpper_of_toLower c0 'm' 'M' (by decide) (by decide) (by decide) h0
      have hle : lowerStr (c0 :: e1) = cs "meiji" := by
        simp only [lowerStr, List.map_cons, h0, h1]
        decide
      have hspec : specEraOfToken (c0 :: e1) = some (cs "Meiji") := by
        unfold specEraOfToken
        simp only [hle]
        decide
      have hfind : assocFind ERA_START_YEARS (cs "Meiji") = some 1868 := rfl
      simp only [convertEraMatch, specEraMatch, hspec, capitalizeStr, hup]
      rw [show startsWithChar ('M' :: lowerStr e1) 'R' = false from rfl]
      rw [show startsWithChar ('M' :: lowerStr e1) 'H' = false from rfl]
      rw [show startsWithChar ('M' :: lowerStr e1) 'S' = false from rfl]
      rw [show startsWithChar ('M' :: lowerStr e1) 'T' = false from rfl]
      rw [show startsWithChar ('M' :: lowerStr e1) 'M' = true from rfl]
      simp [hfind, eraTail_eq_spec]
  · have hlow2 : lowerStr e = ['r'] := by rw [hlow]; decide
    cases e with
    | nil => exact absurd hlow2 (by simp [lowerStr])
    | cons c0 e1 =>
      simp only [lowerStr, List.map_cons] at hlow2
      injection hlow2 with h0 h1
      have hup : toUpperChar c0 = 'R' :=
        toUpper_of_toLower c0 'r' 'R' (by decide) (by decide) (by decide) h0
      have hle : lowerStr (c0 :: e1) = cs "r" := by
        simp only [lowerStr, List.map_cons, h0, h1]
        decide
      have hspec : specEraOfToken (c0 :: e1) = some (cs "Reiwa") := by
        unfold specEraOfToken
        simp only [hle]
        decide
      have hfind : assocFind ERA_START_YEARS (cs "Reiwa") = some 2019 := rfl
      simp only [convertEraMatch, specEraMatch, hspec, capitalizeStr, hup]
      rw [show startsWithChar ('R' :: lowerStr e1) 'R' = true from rfl]
      simp [hfind, eraTail_eq_spec]
  · have hlow2 : lowerStr e = ['h'] := by rw [hlow]; decide
    cases e with
    | nil => exact absurd hlow2 (by simp [lowerStr])
    | cons c0 e1 =>
      simp only [lowerStr, List.map_cons] at hlow2
      injection hlow2 with h0 h1
      have hup : toUpperChar c0 = 'H' :=
        toUpper_of_toLower c0 'h' 'H' (by decide) (by decide) (by decide) h0
      have hle : lowerStr (c0 :: e1) = cs "h" := by
        simp only [lowerStr, List.map_cons, h0, h1]
        decide
      have hspec : specEraOfToken (c0 :: e1) = some (cs "Heisei") := by
        unfold specEraOfToken
        simp only [hle]
        decide
      have hfind : assocFind ERA_START_YEARS (cs "Heisei") = some 1989 := rfl
      simp only [convertEraMatch, specEraMatch, hspec, capitalizeStr, hup]
      rw [show startsWithChar ('H' :: lowerStr e1) 'R' = false from rfl]
      rw [show startsWithChar ('H' :: lowerStr e1) 'H' = true from rfl]
      simp [hfind, eraTail_eq_spec]
  · have hlow2 : lowerStr e = ['s'] := by rw [hlow]; decide
    cases e with
    | nil => exact absurd hlow2 (by simp [lowerStr])
    | cons c0 e1 =>
      simp only [lowerStr, List.map_cons] at hlow2
      injection hlow2 with h0 h1
      have hup : toUpperChar c0 = 'S' :=
        toUpper_of_toLower c0 's' 'S' (by decide) (by decide) (by decide) h0
      have hle : lowerStr (c0 :: e1) = cs "s" := by
        simp only [lowerStr, List.map_cons, h0, h1]
        decide
      have hspec : specEraOfToken (c0 :: e1) = some (cs "Showa") := by
        unfold specEraOfToken
        simp only [hle]
        decide
      have hfind : assocFind ERA_START_YEARS (cs "Showa") = some 1926 := rfl
      simp only [convertEraMatch, specEraMatch, hspec, capitalizeStr, hup]
      rw [show startsWithChar ('S' :: lowerStr e1) 'R' = false from rfl]
      rw [show startsWithChar ('S' :: lowerStr e1) 'H' = false from rfl]
      rw [show startsWithChar ('S' :: lowerStr e1) 'S' = true from rfl]
      simp [hfind, eraTail_eq_spec]
  · have hlow2 : lowerStr e = ['t'] := by rw [hlow]; decide
    cases e with
    | nil => exact absurd hlow2 (by simp [lowerStr])
    | cons c0 e1 =>
      simp only [lowerStr, List.map_cons] at hlow2
      injection hlow2 with h0 h1
      have hup : toUpperChar c0 = 'T' :=
        toUpper_of_toLower c0 't' 'T' (by decide) (by decide) (by decide) h0
      have hle : lowerStr (c0 :: e1) = cs "t" := by
        simp only [lowerStr, List.map_cons, h0, h1]
        decide
      have hspec : specEraOfToken (c0 :: e1) = some (cs "Taisho") := by
        unfold specEraOfToken
        simp only [hle]
        decide
      have hfind : assocFind ERA_START_YEARS (cs "Taisho") = some 1912 := rfl
      simp only [convertEraMatch, specEraMatch, hspec, capitalizeStr, hup]
      rw [show startsWithChar ('T' :: lowerStr e1) 'R' = false from rfl]
      rw [show startsWithChar ('T' :: lowerStr e1) 'H' = false from rfl]
      rw [show startsWithChar ('T' :: lowerStr e1) 'S' = false from rfl]
      rw [show startsWithChar ('T' :: lowerStr e1) 'T' = true from rfl]
      simp [hfind, eraTail_eq_spec]
  · have hlow2 : lowerStr e = ['m'] := by rw [hlow]; decide
    cases e with
    | nil => exact absurd hlow2 (by simp [lowerStr])
    | cons c0 e1 =>
      simp only [lowerStr, List.map_cons] at hlow2
      injection hlow2 with h0 h1
      have hup : toUpperChar c0 = 'M' :=
        toUpper_of_toLower c0 'm' 'M' (by decide) (by decide) (by decide) h0
      have hle : lowerStr (c0 :: e1) = cs "m" := by
        simp only [lowerStr, List.map_cons, h0, h1]
        decide
      have hspec : specEraOfToken (c0 :: e1) = some (cs "Meiji") := by
        unfold specEraOfToken
        simp only [hle]
        decide
      have hfind : assocFind ERA_START_YEARS (cs "Meiji") = some 1868 := rfl
      simp only [convertEraMatch, specEraMatch, hspec, capitalizeStr, hup]
      rw [show startsWithChar ('M' :: lowerStr e1) 'R' = false from rfl]
      rw [show startsWithChar ('M' :: lowerStr e1) 'H' = false from rfl]
      rw [show startsWithChar ('M' :: lowerStr e1) 'S' = false from rfl]
      rw [show startsWithChar ('M' :: lowerStr e1) 'T' = false from rfl]
      rw [show startsWithChar ('M' :: lowerStr e1) 'M' = true from rfl]
      simp [hfind, eraTail_eq_spec]

/-- C3 (confirmed): the source-shaped Era Date Normalizer agrees with the
spec-worded reformulation on every input — null when no era+year token is
found, otherwise the ISO date built from the era table, the Gannen/offset
rule, the post-parenthetical numeric tokens with month/day defaults, and
nullified when the constructed calendar date is invalid. -/
theorem era_date_normalizer_refines_spec (s : Str) :
    convert_japanese_date_to_iso s = eraDateNormalizerSpec s := by
  by_cases hs : s = []
  · subst hs; rfl
  · simp only [convert_japanese_date_to_iso, if_neg hs, eraDateNormalizerSpec]
    cases h : searchEraYear (pyStrip s) with
    | none => rfl
    | some t =>
      obtain ⟨e, y, r⟩ := t
      exact eraMatch_eq_spec e y r (searchEraYear_sound _ _ _ _ h)

/-! ## Row-level toolkit -/

theorem rowGet?_append_left (r : RowA) (c : Str) (x : Cell)
    (h : rowGet? r c = some x) : ∀ t : RowA, rowGet? (r ++ t) c = some x := by
  induction r with
  | nil => simp [rowGet?] at h
  | cons p rest ih =>
    intro t
    obtain ⟨k, v⟩ := p
    simp only [rowGet?] at h
    simp only [List.cons_append, rowGet?]
    by_cases hk : k = c
    · rw [if_pos hk] at h ⊢; exact h
    · rw [if_neg hk] at h ⊢; exact ih h t

theorem rowGet?_append_none (r : RowA) (c : Str)
    (h : rowGet? r c = none) : ∀ t : RowA, rowGet? (r ++ t) c = rowGet? t c := by
  induction r with
  | nil => intro t; simp
  | cons p rest ih =>
    intro t
    obtain ⟨k, v⟩ := p
    simp only [rowGet?] at h
    simp only [List.cons_append, rowGet?]
    by_cases hk : k = c
    · rw [if_pos hk] at h; exact absurd h (by simp)
    · rw [if_neg hk] at h ⊢; exact ih h t

theorem rowGet?_of_key_absent (r : RowA) (c : Str)
    (h : c ∉ r.map (·.1)) : rowGet? r c = none := by
  induction r with
  | nil => rfl
  | cons p rest ih =>
    obtain ⟨k, v⟩ := p
    simp only [List.map_cons, List.mem_cons] at h
    push_neg at h
    simp only [rowGet?]
    rw [if_neg (fun he => h.1 he.symm)]
    exact ih h.2

theorem rowGet?_all_null (ext : RowA) (c : Str)
    (hall : ∀ p ∈ ext, p.2 = none) (hc : c ∈ ext.map (·.1)) :
    rowGet? ext c = some none := by
  induction ext with
  | nil => simp at hc
  | cons p rest ih =>
    obtain ⟨k, v⟩ := p
    simp only [List.map_cons, List.mem_cons] at hc
    simp only [rowGet?]
    by_cases hk : k = c
    · rw [if_pos hk]
      have := hall (k, v) (List.mem_cons_self ..)
      simp only at this
      rw [this]
    · rw [if_neg hk]
      rcases hc with hc | hc
      · exact absurd hc.symm hk
      · exact ih (fun p hp => hall p (List.mem_cons_of_mem _ hp)) hc

theorem rowGet?_mapColRow_self (c : Str) (f : Cell → Cell) (r : RowA) :
    rowGet? (mapColRow c f r) c = (rowGet? r c).map f := by
  induction r with
  | nil => rfl
  | cons p rest ih =>
    obtain ⟨k, v⟩ := p
    simp only [mapColRow, List.map_cons]
    by_cases hk : k = c
    · rw [if_pos hk]
      simp [rowGet?, if_pos hk]
    · rw [if_neg hk]
      simp only [rowGet?, if_neg hk]
      exact ih

theorem rowGet?_mapColRow_ne (c c2 : Str) (f : Cell → Cell) (r : RowA)
    (h : c2 ≠ c) : rowGet? (mapColRow c f r) c2 = rowGet? r c2 := by
  induction r with
  | nil => rfl
  | cons p rest ih =>
    obtain ⟨k, v⟩ := p
    simp only [mapColRow, List.map_cons]
    by_cases hk : k = c
    · rw [if_pos hk]
      simp only [rowGet?]
      rw [if_neg (by rw [hk]; exact fun he => h he.symm),
          if_neg (by rw [hk]; exact fun he => h he.symm)]
      exact ih
    · rw [if_neg hk]
      simp only [rowGet?]
      by_cases hk2 : k = c2
      · rw [if_pos hk2, if_pos hk2]
      · rw [if_neg hk2, if_neg hk2]
        exact ih

theorem rowGet?_append_ne_single (r : RowA) (c c2 : Str) (v : Cell)
    (h : c2 ≠ c) : rowGet? (r ++ [(c, v)]) c2 = rowGet? r c2 := by
  induction r with
  | nil => simp [rowGet?, Ne.symm h]
  | cons p rest ih =>
    obtain ⟨k, v2⟩ := p
    simp only [List.cons_append, rowGet?]
    by_cases hk : k = c2
    · rw [if_pos hk, if_pos hk]
    · rw [if_neg hk, if_neg hk]
      exact ih

theorem rowGet?_overwrite_self (r : RowA) (c : Str) (v : Cell) :
    rowGet? (r.map fun p => if p.1 = c then (p.1, v) else p) c =
      (rowGet? r c).map fun _ => v := by
  induction r with
  | nil => rfl
  | cons p rest ih =>
    obtain ⟨k, v2⟩ := p
    simp only [List.map_cons]
    by_cases hk : k = c
    · rw [if_pos hk]
      simp [rowGet?, hk]
    · rw [if_neg hk]
      simp only [rowGet?, if_neg hk]
      exact ih

theorem rowGet?_overwrite_ne (r : RowA) (c c2 : Str) (v : Cell)
    (h : c2 ≠ c) :
    rowGet? (r.map fun p => if p.1 = c then (p.1, v) else p) c2 =
      rowGet? r c2 := by
  induction r with
  | nil => rfl
  | cons p rest ih =>
    obtain ⟨k, v2⟩ := p
    simp only [List.map_cons]
    by_cases hk : k = c
    · rw [if_pos hk]
      simp only [rowGet?]
      rw [if_neg (by rw [hk]; exact fun he => h he.symm),
          if_neg (by rw [hk]; exact fun he => h he.symm)]
      exact ih
    · rw [if_neg hk]
      simp only [rowGet?]
      by_cases hq : k = c2
      · rw [if_pos hq, if_pos hq]
      · rw [if_neg hq, if_neg hq]
        exact ih

theorem rowGet?_setCell_self (r : RowA) (c : Str) (v : Cell) :
    rowGet? (setCell r c v) c = some v := by
  unfold setCell
  by_cases hp : (rowGet? r c).isSome
  · rw [if_pos hp, rowGet?_overwrite_self]
    cases hx : rowGet? r c
    · rw [hx] at hp; simp at hp
    · rfl
  · rw [if_neg hp]
    have hn : rowGet? r c = none := by
      cases hx : rowGet? r c
      · rfl
      · rw [hx] at hp; simp at hp
    rw [rowGet?_append_none r c hn]
    simp [rowGet?]

theorem rowGet?_setCell_ne (r : RowA) (c c2 : Str) (v : Cell)
    (h : c2 ≠ c) : rowGet? (setCell r c v) c2 = rowGet? r c2 := by
  unfold setCell
  by_cases hp : (rowGet? r c).isSome
  · rw [if_pos hp, rowGet?_overwrite_ne _ _ _ _ h]
  · rw [if_neg hp]
    exact rowGet?_append_ne_single r c c2 v h

theorem rowGet?_projectRow (fields : List Str) (r : RowA) (c : Str) :
    rowGet? (projectRow fields r) c =
      if c ∈ fields then some (cellOf r c) else none := by
  induction fields with
  | nil => simp [projectRow, rowGet?]
  | cons f rest ih =>
    simp only [projectRow, List.map_cons, rowGet?]
    by_cases hf : f = c
    · subst hf
      simp [List.mem_cons]
    · rw [if_neg hf]
      simp only [projectRow] at ih
      rw [ih]
      by_cases hm : c ∈ rest
      · simp [List.mem_cons, hm]
      · simp [List.mem_cons, hm, Ne.symm hf]

theorem mapCol_rows (df : DF) (c : Str) (f : Cell → Cell) :
    (mapCol df c f).rows = df.rows.map (mapColRow c f) := rfl

theorem rowGet?_chain_not_mem (f : Cell → Cell) (c : Str) :
    ∀ (cols : List Str) (r : RowA), c ∉ cols →
      rowGet? (cols.foldl (fun acc col => mapColRow col f acc) r) c =
        rowGet? r c := by
  intro cols
  induction cols with
  | nil => intro r _; rfl
  | cons col rest ih =>
    intro r h
    simp only [List.mem_cons] at h
    push_neg at h
    simp only [List.foldl_cons]
    rw [ih _ h.2, rowGet?_mapColRow_ne _ _ _ _ h.1]

theorem rowGet?_chain_null_stable (f : Cell → Cell) (hf : f none = none)
    (c : Str) :
    ∀ (cols : List Str) (r : RowA), rowGet? r c = some none →
      rowGet? (cols.foldl (fun acc col => mapColRow col f acc) r) c =
        some none := by
  intro cols
  induction cols with
  | nil => intro r h; exact h
  | cons col rest ih =>
    intro r h
    simp only [List.foldl_cons]
    apply ih
    by_cases hcol : c = col
    · subst hcol
      rw [rowGet?_mapColRow_self, h]
      simp [hf]
    · rw [rowGet?_mapColRow_ne _ _ _ _ hcol]
      exact h

theorem rowGet?_chain_applied (f : Cell → Cell) (hf0 : f (some []) = none)
    (hf : f none = none) (c : Str) :
    ∀ (cols : List Str) (r : RowA), c ∈ cols →
      rowGet? r c = some (some []) →
      rowGet? (cols.foldl (fun acc col => mapColRow col f acc) r) c =
        some none := by
  intro cols
  induction cols with
  | nil => intro r h; simp at h
  | cons col rest ih =>
    intro r hc hv
    simp only [List.foldl_cons]
    by_cases hcol : col = c
    · subst hcol
      apply rowGet?_chain_null_stable f hf
      rw [rowGet?_mapColRow_self, hv]
      simp [hf0]
    · rw [List.mem_cons] at hc
      rcases hc with hc | hc
      · exact absurd hc.symm hcol
      · exact ih _ hc (by rw [rowGet?_mapColRow_ne _ _ _ _ (fun he => hcol he.symm)]; exact hv)

theorem forall2_of_map {α β : Type} (f : α → β) (l : List α)
    (R : α → β → Prop) (h : ∀ a ∈ l, R a (f a)) :
    List.Forall₂ R l (l.map f) := by
  induction l with
  | nil => constructor
  | cons a rest ih =>
    simp only [List.map_cons]
    exact List.Forall₂.cons (h a (List.mem_cons_self ..))
      (ih fun a ha => h a (List.mem_cons_of_mem _ ha))

theorem addNullCol_fold (want : List Str) :
    ∀ df : DF,
      (want.foldl addNullCol df).rows =
        df.rows.map (fun r => r ++ want.map (fun c => (c, (none : Cell)))) ∧
      (want.foldl addNullCol df).cols = df.cols ++ want := by
  induction want with
  | nil =>
    intro df
    constructor
    · simp
    · simp
  | cons c rest ih =>
    intro df
    obtain ⟨h1, h2⟩ := ih (addNullCol df c)
    constructor
    · simp only [List.foldl_cons]
      rw [h1]
      simp only [addNullCol, List.map_map, List.map_cons]
      apply List.map_congr_left
      intro r _
      simp [List.append_assoc]
    · simp only [List.foldl_cons]
      rw [h2]
      simp [addNullCol, List.append_assoc]

theorem fillMissing_struct (want : List Str) :
    ∀ df : DF, ∃ ext : RowA,
      (∀ p ∈ ext, p.2 = none) ∧
      (fillMissing df want).rows = df.rows.map (fun r => r ++ ext) ∧
      (fillMissing df want).cols = df.cols ++ ext.map (·.1) ∧
      (∀ c ∈ want, c ∈ (fillMissing df want).cols) ∧
      (∀ c ∈ want, c ∉ df.cols → c ∈ ext.map (·.1)) := by
  induction want with
  | nil =>
    intro df
    refine ⟨[], by simp, by simp [fillMissing], by simp [fillMissing],
      by simp, by simp⟩
  | cons c rest ih =>
    intro df
    by_cases hc : c ∈ df.cols
    · obtain ⟨ext, hnull, hrows, hcols, hwant, hmiss⟩ := ih df
      have hstep : fillMissing df (c :: rest) = fillMissing df rest := by
        simp [fillMissing, hc]
      refine ⟨ext, hnull, by rw [hstep]; exact hrows,
        by rw [hstep]; exact hcols, ?_, ?_⟩
      · intro c2 hc2
        rw [hstep]
        rcases List.mem_cons.mp hc2 with h | h
        · subst h
          rw [hcols]
          exact List.mem_append_left _ hc
        · exact (by rw [hstep] at *; exact hwant c2 h)
      · intro c2 hc2 hnc2
        rcases List.mem_cons.mp hc2 with h | h
        · subst h; exact absurd hc hnc2
        · exact hmiss c2 h hnc2
    · obtain ⟨ext, hnull, hrows, hcols, hwant, hmiss⟩ := ih (addNullCol df c)
      have hstep : fillMissing df (c :: rest) =
          fillMissing (addNullCol df c) rest := by
        simp [fillMissing, hc]
      refine ⟨(c, none) :: ext, ?_, ?_, ?_, ?_, ?_⟩
      · intro p hp
        rcases List.mem_cons.mp hp with h | h
        · subst h; rfl
        · exact hnull p h
      · rw [hstep, hrows]
        simp only [addNullCol, List.map_map]
        apply List.map_congr_left
        intro r _
        simp [List.append_assoc]
      · rw [hstep, hcols]
        simp [addNullCol, List.append_assoc]
      · intro c2 hc2
        rw [hstep]
        rcases List.mem_cons.mp hc2 with h | h
        · subst h
          rw [hcols]
          exact List.mem_append_left _ (by simp [addNullCol])
        · exact hwant c2 h
      · intro c2 hc2 hnc2
        simp only [List.map_cons, List.mem_cons]
        rcases List.mem_cons.mp hc2 with h | h
        · exact Or.inl h
        · by_cases he : c2 = c
          · exact Or.inl he
          · refine Or.inr (hmiss c2 h ?_)
            simp only [addNullCol, List.mem_append, List.mem_singleton]
            push_neg
            exact ⟨hnc2, he⟩

theorem mapColFold_struct (f : Cell → Cell) (cols : List Str) :
    ∀ df : DF, (∀ c ∈ cols, c ∈ df.cols) →
      (cols.foldl (fun acc c => if c ∈ acc.cols then mapCol acc c f else acc)
          df).rows =
        df.rows.map
          (fun r => cols.foldl (fun acc c => mapColRow c f acc) r) ∧
      (cols.foldl (fun acc c => if c ∈ acc.cols then mapCol acc c f else acc)
          df).cols = df.cols := by
  induction cols with
  | nil =>
    intro df _
    constructor
    · simp
    · rfl
  | cons c rest ih =>
    intro df hin
    have hc : c ∈ df.cols := hin c (List.mem_cons_self ..)
    have hrest : ∀ c2 ∈ rest, c2 ∈ (mapCol df c f).cols := by
      intro c2 h2
      simpa [mapCol] using hin c2 (List.mem_cons_of_mem _ h2)
    obtain ⟨h1, h2⟩ := ih (mapCol df c f) hrest
    constructor
    · simp only [List.foldl_cons, if_pos hc]
      rw [h1]
      simp [mapCol, List.map_map]
    · simp only [List.foldl_cons, if_pos hc]
      rw [h2]
      rfl

theorem normalize_approvals_rows_struct (df : DF) :
    ∃ ext : RowA,
      (∀ p ∈ ext, p.2 = none) ∧
      (∀ c ∈ (COLUMN_MAPPING.map (·.2)) ++ [cs "application_type"],
        c ∉ (renameBy (applyMapping COLUMN_MAPPING) df).cols →
          c ∈ ext.map (·.1)) ∧
      (normalize_approvals df).rows =
        (renameBy (applyMapping COLUMN_MAPPING) df).rows.map
          (fun r =>
            let r4 := mapColRow (cs "approval_date") normDateCell
              (approvalsTextCols.foldl
                (fun acc c2 => mapColRow c2 normStrCell acc) (r ++ ext))
            projectRow silverApprovalFields
              (r4 ++ [(cs "coreason_id",
                 some (generate_id (cellOf r4 (cs "approval_id"))
                                   (cellOf r4 (cs "approval_date"))))])) := by
  obtain ⟨ext, hnull, hrows2, hcols2, hwant, hmiss⟩ :=
    fillMissing_struct ((COLUMN_MAPPING.map (·.2)) ++ [cs "application_type"])
      (renameBy (applyMapping COLUMN_MAPPING) df)
  have htext_in : ∀ c2 ∈ approvalsTextCols,
      c2 ∈ (fillMissing (renameBy (applyMapping COLUMN_MAPPING) df)
        ((COLUMN_MAPPING.map (·.2)) ++ [cs "application_type"])).cols := by
    intro c2 h2
    exact hwant c2
      ((by decide :
        ∀ x ∈ approvalsTextCols,
          x ∈ (COLUMN_MAPPING.map (·.2)) ++ [cs "application_type"]) c2 h2)
  obtain ⟨hrows3, hcols3⟩ :=
    mapColFold_struct normStrCell approvalsTextCols _ htext_in
  have hdate_in : (cs "approval_date") ∈
      (approvalsTextCols.foldl
        (fun acc c2 => if c2 ∈ acc.cols then mapCol acc c2 normStrCell else acc)
        (fillMissing (renameBy (applyMapping COLUMN_MAPPING) df)
          ((COLUMN_MAPPING.map (·.2)) ++ [cs "application_type"]))).cols := by
    rw [hcols3]
    exact hwant _ (by decide)
  refine ⟨ext, hnull, hmiss, ?_⟩
  simp only [normalize_approvals]
  rw [if_pos hdate_in, mapCol_rows, hrows3, hrows2]
  simp only [List.map_map]
  rfl

theorem mapColFoldPlain (f : Cell → Cell) (cols : List Str) :
    ∀ df : DF,
      (cols.foldl (fun acc c => mapCol acc c f) df).rows =
        df.rows.map
          (fun r => cols.foldl (fun acc c => mapColRow c f acc) r) ∧
      (cols.foldl (fun acc c => mapCol acc c f) df).cols = df.cols := by
  induction cols with
  | nil =>
    intro df
    exact ⟨by simp, rfl⟩
  | cons c rest ih =>
    intro df
    obtain ⟨h1, h2⟩ := ih (mapCol df c f)
    constructor
    · simp only [List.foldl_cons]
      rw [h1]
      simp [mapCol, List.map_map]
    · simp only [List.foldl_cons]
      rw [h2]
      rfl

theorem renameBy_wf (f : Str → Str) (df : DF)
    (hwf : ∀ r ∈ df.rows, r.map (·.1) = df.cols) :
    ∀ r ∈ (renameBy f df).rows, r.map (·.1) = (renameBy f df).cols := by
  intro r hr
  simp only [renameBy, List.mem_map] at hr
  obtain ⟨r0, hr0, rfl⟩ := hr
  simp only [renameBy, List.map_map]
  rw [← hwf r0 hr0, List.map_map]
  rfl

theorem applyMapping_target_id (c : Str)
    (h : applyMapping COLUMN_MAPPING c = cs "approval_id") :
    c = cs "承認番号" ∨ c = cs "approval_id" := by
  unfold applyMapping at h
  split at h
  · rename_i q hf
    have hfs := List.find?_some hf
    simp only [decide_eq_true_eq] at hfs
    have hqc : q.1 = c := hfs
    have hqm : q ∈ COLUMN_MAPPING := List.mem_of_find?_eq_some hf
    simp only [COLUMN_MAPPING, List.mem_cons, List.not_mem_nil, or_false]
      at hqm
    rcases hqm with he|he|he|he|he|he <;> subst he <;> simp only at h hqc
    · exact Or.inl hqc.symm
    all_goals exact absurd h (by decide)
  · exact Or.inr h

/-- C2 (amended): the case-report Schema Mapper raises the named
missing-critical-column error whenever the case identifier is absent after
renaming, and otherwise succeeds, synthesizing every other missing mapped
column as an all-null column; the approvals Schema Mapper, in contrast,
silently synthesizes null for every missing canonical field including the
record identifier `approval_id`. -/
theorem schema_mapper_critical_field_rules :
    (∀ (df : DF) (mapping : List (Str × Str)),
      (cs "id") ∈ mapping.map (·.2) →
      (cs "id") ∉
        (renameBy (applyMapping mapping) (renameBy stripWsName df)).cols →
      normalizeCommon df mapping =
        .error (.valueErr
          (cs "Missing critical column id (mapped from 識別番号)"))) ∧
    (∀ (df : DF) (mapping : List (Str × Str)),
      ((cs "id") ∈
        (renameBy (applyMapping mapping) (renameBy stripWsName df)).cols ∨
       (cs "id") ∉ mapping.map (·.2)) →
      ∃ odf, normalizeCommon df mapping = .ok odf ∧
        (∀ t ∈ mapping.map (·.2), t ∈ odf.cols) ∧
        ((∀ r ∈ df.rows, r.map (·.1) = df.cols) →
          ∀ t ∈ mapping.map (·.2),
            t ∉ (renameBy (applyMapping mapping)
              (renameBy stripWsName df)).cols →
            ∀ r ∈ odf.rows, rowGet? r t = some none)) ∧
    (∀ df : DF, (∀ r ∈ df.rows, r.map (·.1) = df.cols) →
      (cs "承認番号") ∉ df.cols → (cs "approval_id") ∉ df.cols →
      ∀ r ∈ (normalize_approvals df).rows,
        rowGet? r (cs "approval_id") = some none) := by
  refine ⟨?_, ?_, ?_⟩
  · intro df mapping h1 h2
    have hmem : (cs "id") ∈ (mapping.map (·.2)).filter
        (fun en => decide (en ∉
          (renameBy (applyMapping mapping) (renameBy stripWsName df)).cols)) :=
      List.mem_filter.mpr ⟨h1, decide_eq_true h2⟩
    simp only [normalizeCommon]
    rw [if_pos hmem]
  · intro df mapping h
    have hnm : (cs "id") ∉ (mapping.map (·.2)).filter
        (fun en => decide (en ∉
          (renameBy (applyMapping mapping) (renameBy stripWsName df)).cols)) := by
      intro hmem
      rw [List.mem_filter] at hmem
      obtain ⟨ht, hp⟩ := hmem
      rcases h with h | h
      · exact of_decide_eq_true hp h
      · exact h ht
    refine ⟨_, by simp only [normalizeCommon]; rw [if_neg hnm], ?_, ?_⟩
    · intro t ht
      obtain ⟨hr4, hc4⟩ := mapColFoldPlain normTextCell _ _
      rw [hc4]
      obtain ⟨ha1, ha2⟩ := addNullCol_fold _
        (renameBy (applyMapping mapping) (renameBy stripWsName df))
      rw [ha2]
      by_cases hin : t ∈
          (renameBy (applyMapping mapping) (renameBy stripWsName df)).cols
      · exact List.mem_append_left _ hin
      · exact List.mem_append_right _
          (List.mem_filter.mpr ⟨ht, decide_eq_true hin⟩)
    · intro hwf t ht hnotin r hr
      obtain ⟨hr4, hc4⟩ := mapColFoldPlain normTextCell _ _
      rw [hr4] at hr
      obtain ⟨ha1, ha2⟩ := addNullCol_fold _
        (renameBy (applyMapping mapping) (renameBy stripWsName df))
      rw [ha1] at hr
      rw [List.map_map] at hr
      obtain ⟨r2, hr2, rfl⟩ := List.mem_map.mp hr
      have hwf2 := renameBy_wf (applyMapping mapping) _
        (renameBy_wf stripWsName df hwf)
      have s0 : rowGet? r2 t = none :=
        rowGet?_of_key_absent _ _ (by rw [hwf2 r2 hr2]; exact hnotin)
      simp only [Function.comp]
      apply rowGet?_chain_null_stable normTextCell rfl
      rw [rowGet?_append_none _ _ s0]
      apply rowGet?_all_null
      · intro p hp
        simp only [List.mem_map] at hp
        obtain ⟨c0, _, rfl⟩ := hp
        rfl
      · exact List.mem_map.mpr ⟨(t, none),
          List.mem_map.mpr
            ⟨t, List.mem_filter.mpr ⟨ht, decide_eq_true hnotin⟩, rfl⟩, rfl⟩
  · intro df hwf hjp hen r hr
    obtain ⟨ext, hnull, hmiss, hout⟩ := normalize_approvals_rows_struct df
    rw [hout] at hr
    obtain ⟨r1, hr1, rfl⟩ := List.mem_map.mp hr
    have hwf1 := renameBy_wf (applyMapping COLUMN_MAPPING) df hwf
    have hid_notin : (cs "approval_id") ∉
        (renameBy (applyMapping COLUMN_MAPPING) df).cols := by
      intro hmem
      simp only [renameBy, List.mem_map] at hmem
      obtain ⟨c0, hc0, he⟩ := hmem
      rcases applyMapping_target_id c0 he with h | h
      · subst h; exact hjp hc0
      · subst h; exact hen hc0
    have s0 : rowGet? r1 (cs "approval_id") = none :=
      rowGet?_of_key_absent _ _ (by rw [hwf1 r1 hr1]; exact hid_notin)
    have s1 : rowGet? (r1 ++ ext) (cs "approval_id") = some none := by
      rw [rowGet?_append_none _ _ s0]
      exact rowGet?_all_null ext _ hnull (hmiss _ (by decide) hid_notin)
    have s2 : rowGet? (approvalsTextCols.foldl
        (fun acc c2 => mapColRow c2 normStrCell acc) (r1 ++ ext))
        (cs "approval_id") = some none :=
      rowGet?_chain_null_stable normStrCell rfl _ _ _ s1
    have s3 : rowGet? (mapColRow (cs "approval_date") normDateCell
        (approvalsTextCols.foldl
          (fun acc c2 => mapColRow c2 normStrCell acc) (r1 ++ ext)))
        (cs "approval_id") = some none := by
      rw [rowGet?_mapColRow_ne _ _ _ _ (by decide)]
      exact s2
    simp only []
    rw [rowGet?_projectRow, if_pos (by decide), cellOf,
      (rowGet?_append_ne_single _ _ _ _ (by decide)).trans s3]
    rfl

/-- C10 (amended, confirmed): in the refined approvals normalization, every
text or date cell whose value is the empty string is mapped to null in the
output (the per-cell wrappers skip normalization for falsy values), even
though the Text Canonicalizer itself maps the empty string to the empty
string.  (A whitespace-only cell, by contrast, survives as the empty
string — see the counterexample.) -/
theorem refined_empty_cell_nulled (df : DF) (c : Str)
    (hc : c ∈ approvalsTextCols ∨ c = cs "approval_date") :
    (∀ decode enc, normalize_text decode (.str []) enc = some []) ∧
    List.Forall₂
      (fun rin rout =>
        rowGet? rin c = some (some []) → rowGet? rout c = some none)
      (renameBy (applyMapping COLUMN_MAPPING) df).rows
      (normalize_approvals df).rows := by
  refine ⟨fun _ _ => rfl, ?_⟩
  have hsub1 : ∀ x ∈ approvalsTextCols, x ∈ silverApprovalFields := by decide
  have hsub2 : ∀ x ∈ approvalsTextCols, x ≠ cs "coreason_id" := by decide
  have hsub3 : ∀ x ∈ approvalsTextCols, x ≠ cs "approval_date" := by decide
  have hcfields : c ∈ silverApprovalFields := by
    rcases hc with h | h
    · exact hsub1 c h
    · subst h; decide
  have hcne_id : c ≠ cs "coreason_id" := by
    rcases hc with h | h
    · exact hsub2 c h
    · subst h; decide
  obtain ⟨ext, hnull, hmiss, hout⟩ := normalize_approvals_rows_struct df
  rw [hout]
  apply forall2_of_map
  intro rin _
  intro hvin
  simp only []
  have s1 : rowGet? (rin ++ ext) c = some (some []) :=
    rowGet?_append_left _ _ _ hvin ext
  rcases hc with hctext | hcdate
  · have s2 : rowGet? (approvalsTextCols.foldl
        (fun acc c2 => mapColRow c2 normStrCell acc) (rin ++ ext)) c =
        some none :=
      rowGet?_chain_applied normStrCell rfl rfl c _ _ hctext s1
    have hcne_date : c ≠ cs "approval_date" := hsub3 c hctext
    have s3 : rowGet? (mapColRow (cs "approval_date") normDateCell
        (approvalsTextCols.foldl
          (fun acc c2 => mapColRow c2 normStrCell acc) (rin ++ ext))) c =
        some none := by
      rw [rowGet?_mapColRow_ne _ _ _ _ hcne_date]
      exact s2
    have s4 := rowGet?_append_ne_single
      (mapColRow (cs "approval_date") normDateCell
        (approvalsTextCols.foldl
          (fun acc c2 => mapColRow c2 normStrCell acc) (rin ++ ext)))
      (cs "coreason_id") c
      (some (generate_id
        (cellOf (mapColRow (cs "approval_date") normDateCell
          (approvalsTextCols.foldl
            (fun acc c2 => mapColRow c2 normStrCell acc) (rin ++ ext)))
          (cs "approval_id"))
        (cellOf (mapColRow (cs "approval_date") normDateCell
          (approvalsTextCols.foldl
            (fun acc c2 => mapColRow c2 normStrCell acc) (rin ++ ext)))
          (cs "approval_date")))) hcne_id
    rw [rowGet?_projectRow, if_pos hcfields, cellOf, s4.trans s3]
    rfl
  · subst hcdate
    have s2 : rowGet? (approvalsTextCols.foldl
        (fun acc c2 => mapColRow c2 normStrCell acc) (rin ++ ext))
        (cs "approval_date") = some (some []) := by
      rw [rowGet?_chain_not_mem _ _ _ _ (by decide)]
      exact s1
    have s3 : rowGet? (mapColRow (cs "approval_date") normDateCell
        (approvalsTextCols.foldl
          (fun acc c2 => mapColRow c2 normStrCell acc) (rin ++ ext)))
        (cs "approval_date") = some none := by
      rw [rowGet?_mapColRow_self, s2]
      rfl
    have s4 := rowGet?_append_ne_single
      (mapColRow (cs "approval_date") normDateCell
        (approvalsTextCols.foldl
          (fun acc c2 => mapColRow c2 normStrCell acc) (rin ++ ext)))
      (cs "coreason_id") (cs "approval_date")
      (some (generate_id
        (cellOf (mapColRow (cs "approval_date") normDateCell
          (approvalsTextCols.foldl
            (fun acc c2 => mapColRow c2 normStrCell acc) (rin ++ ext)))
          (cs "approval_id"))
        (cellOf (mapColRow (cs "approval_date") normDateCell
          (approvalsTextCols.foldl
            (fun acc c2 => mapColRow c2 normStrCell acc) (rin ++ ext)))
          (cs "approval_date")))) (by decide)
    rw [rowGet?_projectRow, if_pos (by decide), cellOf, s4.trans s3]
    rfl

/-- C2 witness: the JADER Demo mapping raises on a batch without the
identifier column, and the approvals mapper silently nulls `approval_id` on
the concrete identifier-less batch. -/
theorem schema_mapper_critical_field_witness :
    ((cs "id") ∈ DEMO_MAPPING.map (·.2) ∧
     (cs "id") ∉ (renameBy (applyMapping DEMO_MAPPING)
       (renameBy stripWsName (DF.mk [cs "性別"] [[(cs "性別", some (cs "M"))]]))).cols ∧
     (∀ r ∈ approvalsNoId.rows, r.map (·.1) = approvalsNoId.cols) ∧
     (cs "承認番号") ∉ approvalsNoId.cols ∧
     (cs "approval_id") ∉ approvalsNoId.cols) ∧
    normalizeCommon (DF.mk [cs "性別"] [[(cs "性別", some (cs "M"))]])
        DEMO_MAPPING =
      .error (.valueErr
        (cs "Missing critical column id (mapped from 識別番号)")) ∧
    (∀ r ∈ (normalize_approvals approvalsNoId).rows,
      rowGet? r (cs "approval_id") = some none) :=
  ⟨⟨by decide, by decide, by decide, by decide, by decide⟩,
   schema_mapper_critical_field_rules.1 _ _ (by decide) (by decide),
   schema_mapper_critical_field_rules.2.2 approvalsNoId (by decide)
     (by decide) (by decide)⟩

/-- C10 witness: an approvals batch whose brand-name cell is the empty
string has that cell nulled in the refined output. -/
theorem refined_empty_cell_nulled_witness :
    ((cs "brand_name_jp") ∈ approvalsTextCols ∨
      (cs "brand_name_jp") = cs "approval_date") ∧
    ((∀ decode enc, normalize_text decode (.str []) enc = some []) ∧
     List.Forall₂
       (fun rin rout =>
         rowGet? rin (cs "brand_name_jp") = some (some []) →
         rowGet? rout (cs "brand_name_jp") = some none)
       (renameBy (applyMapping COLUMN_MAPPING)
         (DF.mk [cs "販売名"] [[(cs "販売名", some [])]])).rows
       (normalize_approvals
         (DF.mk [cs "販売名"] [[(cs "販売名", some [])]])).rows) :=
  ⟨Or.inl (by decide),
   refined_empty_cell_nulled (DF.mk [cs "販売名"] [[(cs "販売名", some [])]])
     (cs "brand_name_jp") (Or.inl (by decide))⟩

/-- C1 (code_bug evaluation): on a batch with three Suspected drug rows —
case 1 fully matched, case 2 absent from Demo, case 3 without reactions —
the legacy reconstructor that `pipeline_full.py` imports inner-joins Demo
and Reaction and returns only the case-1 row, dropping the orphan Suspected
drug and the zero-reaction Suspected drug; the
`transformations/gold` reconstructor produces the three claimed rows, with
null demographics for case 2 and a null reaction for case 3. -/
theorem legacy_reconstructor_drops_suspected_rows :
    transform_jader_gold_legacy demoFix drugFix reacFix =
      .ok ⟨[cs "case_id", cs "patient_sex", cs "patient_age_group",
            cs "primary_suspect_drug", cs "reaction_pt", cs "reporting_year"],
        [[(cs "case_id", some (cs "1")), (cs "patient_sex", some (cs "M")),
          (cs "patient_age_group", some (cs "20s")),
          (cs "primary_suspect_drug", some (cs "Drug A")),
          (cs "reaction_pt", some (cs "Headache")),
          (cs "reporting_year", some (cs "2020"))]]⟩ ∧
    transform_jader_gold demoFix drugFix reacFix =
      .ok ⟨[cs "case_id", cs "patient_sex", cs "patient_age_group",
            cs "primary_suspect_drug", cs "reaction_pt", cs "reporting_year"],
        [[(cs "case_id", some (cs "1")), (cs "patient_sex", some (cs "M")),
          (cs "patient_age_group", some (cs "20s")),
          (cs "primary_suspect_drug", some (cs "Drug A")),
          (cs "reaction_pt", some (cs "Headache")),
          (cs "reporting_year", some (cs "2020"))],
         [(cs "case_id", some (cs "2")), (cs "patient_sex", none),
          (cs "patient_age_group", none),
          (cs "primary_suspect_drug", some (cs "Drug B")),
          (cs "reaction_pt", some (cs "Nausea")),
          (cs "reporting_year", none)],
         [(cs "case_id", some (cs "3")), (cs "patient_sex", some (cs "F")),
          (cs "patient_age_group", some (cs "30s")),
          (cs "primary_suspect_drug", some (cs "Drug C")),
          (cs "reaction_pt", none),
          (cs "reporting_year", some (cs "2021"))]]⟩ := by
  decide

/-- C7 (code_bug evaluation): the Era Date Normalizer rejects native-script
(kanji) era spellings — `令和2年5月1日` and the kanji first-year form
`令和元年...` return null — while the equivalent Latin spellings convert;
the repository test `test_convert_japanese_date_kanji_eras` expects
`2020-05-01` for the first input. -/
theorem era_normalizer_rejects_native_script :
    convert_japanese_date_to_iso (cs "令和2年5月1日") = none ∧
    convert_japanese_date_to_iso (cs "Reiwa 2.5.1") = some (cs "2020-05-01") ∧
    convert_japanese_date_to_iso (cs "令和元年5月1日") = none ∧
    convert_japanese_date_to_iso (cs "Reiwa Gannen.5.1") =
      some (cs "2019-05-01") ∧
    convert_japanese_date_to_iso (cs "平成31年4月30日") = none ∧
    convert_japanese_date_to_iso (cs "Heisei 31.4.30") =
      some (cs "2019-04-30") := by
  decide

/-- C9 (code_bug evaluation): a `duckdb.Error` raised by the curated-layer
write is swallowed by the `except duckdb.Error` handler of `run_gold` and
the run completes as if the table were merely missing, while a non-duckdb
write failure in `run_gold` and any write failure in the refined layer
(`_run_silver_approvals`) propagate to the caller. -/
theorem gold_write_failure_swallowed :
    runGold readFix writeDuckFail = .ok () ∧
    runGold readFix writeRuntimeFail =
      .error (.runtimeErr (cs "Disk Full")) ∧
    runSilverApprovals readFix writeRuntimeFail none (fun _ _ => none) =
      .error (.runtimeErr (cs "Disk Full")) ∧
    runSilverApprovals readFix writeDuckFail none (fun _ _ => none) =
      .error (.duckdbErr (cs "IO Error: disk full")) := by
  decide

/-- C2 (counterexample): the approvals Schema Mapper, given a batch without
the record-identifier column `承認番号`, raises no error and silently
synthesizes `approval_id` as null (hashing the empty identifier into
`coreason_id`), contradicting the claim that a missing critical field is
never silently nulled. -/
theorem approvals_mapper_nulls_missing_identifier :
    normalize_approvals approvalsNoId =
      ⟨silverApprovalFields,
       [[(cs "approval_id", none), (cs "approval_date", none),
         (cs "brand_name_jp", some (cs "Brand A")),
         (cs "generic_name_jp", none), (cs "applicant_name_jp", none),
         (cs "indication", none),
         (cs "coreason_id",
          some (cs "407258eac6e65d85feefbabd45e21b78c8f1c194b69e2c76d7725f4788246bc8")),
         (cs "application_type", none), (cs "generic_name_en", none),
         (cs "review_report_url", none)]]⟩ := by
  decide

/-- C4 (counterexample): with the external-service credential absent, the
orchestrator stamps every row `skipped_no_key` — including the first row of
the batch, which was already resolved by the Stage 1 lookup
(`generic_name_en` non-null) and which the claim says receives
`lookup_success`. -/
theorem resolved_row_stamped_skipped_no_key :
    cellOf (bridgeFix.rows.headD []) (cs "generic_name_en") =
      some (cs "DrugY EN") ∧
    runTranslationStage none (fun _ _ => none) bridgeFix =
      ⟨[cs "generic_name_jp", cs "brand_name_jp", cs "generic_name_en",
        cs "_translation_status"],
       [[(cs "generic_name_jp", some (cs "DrugY")),
         (cs "brand_name_jp", some (cs "BrandY")),
         (cs "generic_name_en", some (cs "DrugY EN")),
         (cs "_translation_status", some (cs "skipped_no_key"))],
        [(cs "generic_name_jp", some (cs "DrugX")),
         (cs "brand_name_jp", some (cs "BrandX")),
         (cs "generic_name_en", none),
         (cs "_translation_status", some (cs "skipped_no_key"))]]⟩ ∧
    cs "skipped_no_key" ≠ cs "lookup_success" := by
  decide

/-- C10 (counterexample): a whitespace-only (hence non-empty, truthy) brand
name passes the falsy guard, is normalized to the empty string, and the
empty string survives into the refined output — while the empty-string
indication cell of the same row is nulled by the guard. -/
theorem empty_string_survives_whitespace_cell :
    normalize_approvals approvalsWhitespace =
      ⟨silverApprovalFields,
       [[(cs "approval_id", some (cs "123")), (cs "approval_date", none),
         (cs "brand_name_jp", some []), (cs "generic_name_jp", none),
         (cs "applicant_name_jp", none), (cs "indication", none),
         (cs "coreason_id",
          some (cs "ddb11a6975e284e855fa97d1929be8a4ce32564a65c64d5214be39ec9d9c7f2e")),
         (cs "application_type", none), (cs "generic_name_en", none),
         (cs "review_report_url", none)]]⟩ := by
  decide

/-! ## Text Canonicalizer (C6) -/

theorem firstDecode_eq_findSome (decode : Str → List Nat → Option Str)
    (b : List Nat) :
    ∀ l : List Str, firstDecode decode b l = l.findSome? (fun e => decode e b) := by
  intro l
  induction l with
  | nil => rfl
  | cons e rest ih =>
    simp only [firstDecode, List.findSome?_cons]
    cases decode e b <;> simp [ih]

theorem dedupSeen_eq_keepFirst :
    ∀ (l seen : List Str),
      dedupSeen seen l = dedupKeepFirst (l.filter fun x => decide (x ∉ seen)) := by
  intro l
  induction l with
  | nil =>
    intro seen
    simp only [List.filter_nil, dedupSeen]
    rw [dedupKeepFirst]
  | cons e rest ih =>
    intro seen
    by_cases he : e ∈ seen
    · simp only [dedupSeen, if_pos he, List.filter_cons]
      rw [if_neg (by simp [he]), ih]
    · simp only [dedupSeen, if_neg he, List.filter_cons]
      rw [if_pos (by simp [he]), dedupKeepFirst]
      congr 1
      rw [ih (e :: seen), List.filter_filter]
      congr 1
      apply List.filter_congr
      intro x _
      by_cases h1 : x ∈ seen <;> by_cases h2 : x = e <;>
        simp [h1, h2, List.mem_cons]

/-- C6 (confirmed): the Text Canonicalizer returns null for a null input
and the empty string for an empty-string input; a string input is
NFKC-normalized (half-width katakana folded to full-width) and stripped;
a bytes input is decoded by the first encoding of the deduplicated priority
list `[hint, cp932, euc-jp, utf-8, shift_jis]` that succeeds, the result
normalized and stripped, and null is returned when every encoding fails. -/
theorem text_canonicalizer_rules :
    (∀ decode enc, normalize_text decode .null enc = none) ∧
    (∀ decode enc, normalize_text decode (.str []) enc = some []) ∧
    (∀ decode enc s, normalize_text decode (.str s) enc =
      some (pyStrip (nfkc s))) ∧
    (∀ decode enc, normalize_text decode (.str (cs "ﾃｽﾄ")) enc =
      some (cs "テスト")) ∧
    (∀ decode enc b, normalize_text decode (.bytes b) enc =
      ((dedupKeepFirst (encodingsToTry enc)).findSome?
        (fun e => decode e b)).map (fun d => pyStrip (nfkc d))) := by
  refine ⟨fun _ _ => rfl, fun _ _ => rfl, fun _ _ _ => rfl, fun _ _ => rfl, ?_⟩
  intro decode enc b
  simp only [normalize_text]
  rw [dedupSeen_eq_keepFirst,
    show (encodingsToTry enc).filter (fun x => decide (x ∉ ([] : List Str))) =
      encodingsToTry enc from List.filter_eq_self.mpr (by simp),
    firstDecode_eq_findSome]
  cases ((dedupKeepFirst (encodingsToTry enc)).findSome? fun e => decode e b) <;>
    simp

/-! ## Deterministic Identity Generator (C5) -/

theorem bytesBE_length (k : Nat) : ∀ n, (bytesBE k n).length = k := by
  induction k with
  | zero => intro n; rfl
  | succ k ih => intro n; simp [bytesBE, ih]

theorem sha256_length (msg : List Nat) : (sha256 msg).length = 32 := by
  simp [sha256, digestBytes, bytesBE_length]

theorem hexOfBytes_length (l : List Nat) :
    (hexOfBytes l).length = 2 * l.length := by
  induction l with
  | nil => rfl
  | cons b rest ih =>
    simp only [hexOfBytes, List.map_cons, List.flatten_cons, byteHex,
      List.length_append, List.length_cons, List.length_nil]
    simp only [hexOfBytes] at ih
    rw [ih]
    omega

theorem rawId_inj_sid (s1 s2 d : Str) (h : s1 ≠ s2) :
    rawId (some s1) (some d) ≠ rawId (some s2) (some d) := by
  intro he
  simp only [rawId, Option.getD_some] at he
  exact h (List.append_cancel_left (List.append_cancel_right he))

theorem rawId_inj_date (s d1 d2 : Str) (h : d1 ≠ d2) :
    rawId (some s) (some d1) ≠ rawId (some s) (some d2) := by
  intro he
  simp only [rawId, Option.getD_some] at he
  exact h (List.append_cancel_left he)

/-- C5 (confirmed): the Deterministic Identity Generator is a pure function
of the tuple with missing components substituted by the empty string —
equal post-substitution tuples give equal digests; the digest is always a
64-character hex string; changing the source-identifier or date component
(the namespace tag is the fixed literal `PMDA`) changes the pre-hash
string; and the digests are pairwise distinct across the input domain
exercised by the repository tests. -/
theorem deterministic_identity_generator_rules :
    (∀ s1 d1 s2 d2 : Option Str, s1.getD [] = s2.getD [] →
      d1.getD [] = d2.getD [] → generate_id s1 d1 = generate_id s2 d2) ∧
    (∀ sid date : Option Str,
      generate_id sid date =
        generate_id (some (sid.getD [])) (some (date.getD []))) ∧
    (∀ sid date : Option Str, (generate_id sid date).length = 64) ∧
    (∀ s1 s2 d : Str, s1 ≠ s2 →
      rawId (some s1) (some d) ≠ rawId (some s2) (some d)) ∧
    (∀ s d1 d2 : Str, d1 ≠ d2 →
      rawId (some s) (some d1) ≠ rawId (some s) (some d2)) ∧
    (testedIdDomain.map fun p => generate_id p.1 p.2).Pairwise (· ≠ ·) := by
  refine ⟨?_, ?_, ?_, rawId_inj_sid, rawId_inj_date, by decide⟩
  · intro s1 d1 s2 d2 h1 h2
    simp [generate_id, rawId, h1, h2]
  · intro sid date
    simp [generate_id, rawId]
  · intro sid date
    simp [generate_id, hexOfBytes_length, sha256_length]

/-- C5 witness: equal-after-substitution tuples collide by design, and the
component injectivity applies at the tested inputs. -/
theorem deterministic_identity_generator_witness :
    ((none : Option Str).getD [] = (some ([] : Str)).getD [] ∧
     (cs "123") ≠ (cs "124") ∧ (cs "2020-01-01") ≠ (cs "2020-05-01")) ∧
    generate_id none (some (cs "2020-01-01")) =
      generate_id (some []) (some (cs "2020-01-01")) ∧
    rawId (some (cs "123")) (some (cs "2020-01-01")) ≠
      rawId (some (cs "124")) (some (cs "2020-01-01")) ∧
    rawId (some (cs "123")) (some (cs "2020-01-01")) ≠
      rawId (some (cs "123")) (some (cs "2020-05-01")) :=
  ⟨⟨by decide, by decide, by decide⟩,
   deterministic_identity_generator_rules.1 none (some (cs "2020-01-01"))
     (some []) (some (cs "2020-01-01")) (by decide) (by decide),
   deterministic_identity_generator_rules.2.2.2.1 _ _ _ (by decide),
   deterministic_identity_generator_rules.2.2.2.2.1 _ _ _ (by decide)⟩

/-! ## Adverse-Event Reconstructor validation (C8) -/

/-- C8 (confirmed): both reconstructors fail with a named `ValueError`
whenever any of Demo, Drug or Reaction lacks the case key column or Drug
lacks the characterization column — no joined output is produced. -/
theorem reconstructor_missing_columns_error (demo drug reac : DF)
    (h : (cs "id") ∉ demo.cols ∨ (cs "id") ∉ drug.cols ∨
         (cs "id") ∉ reac.cols ∨ (cs "characterization") ∉ drug.cols) :
    (∃ m, transform_jader_gold demo drug reac = .error (.valueErr m)) ∧
    (∃ m, transform_jader_gold_legacy demo drug reac =
      .error (.valueErr m)) := by
  constructor
  · unfold transform_jader_gold
    split_ifs with h1 h2 h3 h4 <;> first | exact ⟨_, rfl⟩ | tauto
  · unfold transform_jader_gold_legacy
    split_ifs with h1 h2 h3 h4 <;> first | exact ⟨_, rfl⟩ | tauto

/-- C8 witness: a Demo table without the key column makes both
reconstructors fail. -/
theorem reconstructor_missing_columns_witness :
    ((cs "id") ∉ (DF.mk [cs "a"] []).cols ∨
     (cs "id") ∉ drugFix.cols ∨ (cs "id") ∉ reacFix.cols ∨
     (cs "characterization") ∉ drugFix.cols) ∧
    ((∃ m, transform_jader_gold (DF.mk [cs "a"] []) drugFix reacFix =
        .error (.valueErr m)) ∧
     (∃ m, transform_jader_gold_legacy (DF.mk [cs "a"] []) drugFix reacFix =
        .error (.valueErr m))) :=
  ⟨Or.inl (by decide),
   reconstructor_missing_columns_error (DF.mk [cs "a"] []) drugFix reacFix
     (Or.inl (by decide))⟩

/-! ## Reference Bridge statuses (C4) -/

/-- C4 (amended): in the Reference Bridge, when the credential is absent
the orchestrator stamps every row — resolved or not — with
`skipped_no_key`; when the credential is present and no row is unresolved
the batch is returned unmodified; when the credential is present and some
row is unresolved, rows resolved by the Stage 1 lookup are stamped
`lookup_success`, a failing/timed-out/empty translation yields status
`failed` with a null target, and a successful non-empty translation yields
`ai_translated` with the stripped result; an empty response body counts as
a failure, and no call is made without a credential. -/
theorem reference_bridge_status_rules (apiKey : Option Str)
    (api : Str → Str → Option Str) (df : DF) :
    ((cs "_translation_status") ∉ df.cols →
      List.Forall₂
        (fun rin rout =>
          rout = rin ++
            [(cs "_translation_status", some (cs "skipped_no_key"))])
        df.rows (runTranslationStage none api df).rows) ∧
    (apiKey.isSome = true →
      (∀ r ∈ df.rows, (cellOf r (cs "generic_name_en")).isSome = true) →
      runTranslationStage apiKey api df = df) ∧
    (apiKey.isSome = true →
      ¬ (∀ r ∈ df.rows, (cellOf r (cs "generic_name_en")).isSome = true) →
      List.Forall₂
        (fun rin rout =>
          (∀ v, cellOf rin (cs "generic_name_en") = some v →
            cellOf rout (cs "generic_name_en") = some v ∧
            rowGet? rout (cs "_translation_status") =
              some (some (cs "lookup_success"))) ∧
          (cellOf rin (cs "generic_name_en") = none →
            translateRow (call_deepseek apiKey api) rin = none →
            cellOf rout (cs "generic_name_en") = none ∧
            rowGet? rout (cs "_translation_status") =
              some (some (cs "failed"))) ∧
          (∀ t, cellOf rin (cs "generic_name_en") = none →
            translateRow (call_deepseek apiKey api) rin = some t →
            cellOf rout (cs "generic_name_en") = some t ∧
            rowGet? rout (cs "_translation_status") =
              some (some (cs "ai_translated"))))
        df.rows (runTranslationStage apiKey api df).rows) ∧
    (∀ (k : Str) (g b : Str), api g b = some [] →
      call_deepseek (some k) api g b = none) ∧
    (∀ g b : Str, call_deepseek none api g b = none) := by
  refine ⟨?_, ?_, ?_, ?_, fun _ _ => rfl⟩
  · intro hts
    simp only [runTranslationStage, Option.isSome_none, Bool.false_eq_true,
      if_false, if_neg hts]
    apply forall2_of_map
    intro r _
    rfl
  · intro hk hall
    simp only [runTranslationStage, if_pos hk, jan_bridge_ai_fallback]
    rw [if_pos (List.all_eq_true.mpr hall)]
  · intro hk hsome
    simp only [runTranslationStage, if_pos hk, jan_bridge_ai_fallback]
    have hall : df.rows.all
        (fun r => (cellOf r (cs "generic_name_en")).isSome) = false := by
      cases hb : df.rows.all
          (fun r => (cellOf r (cs "generic_name_en")).isSome)
      · rfl
      · exact absurd (List.all_eq_true.mp hb) hsome
    rw [if_neg (by simp [hall])]
    apply forall2_of_map
    intro r _
    by_cases hr : (cellOf r (cs "generic_name_en")).isSome = true
    · rw [if_pos hr]
      refine ⟨?_, ?_, ?_⟩
      · intro v hv
        constructor
        · unfold cellOf
          rw [rowGet?_setCell_ne _ _ _ _ (by decide)]
          exact hv
        · exact rowGet?_setCell_self ..
      · intro hv
        rw [hv] at hr
        simp at hr
      · intro t hv
        rw [hv] at hr
        simp at hr
    · rw [if_neg hr]
      have hv0 : cellOf r (cs "generic_name_en") = none := by
        cases hx : cellOf r (cs "generic_name_en")
        · rfl
        · rw [hx] at hr; simp at hr
      refine ⟨?_, ?_, ?_⟩
      · intro v hv
        rw [hv] at hv0
        simp at hv0
      · intro _ htr
        simp only [htr]
        refine ⟨?_, ?_⟩
        · unfold cellOf
          rw [rowGet?_setCell_ne _ _ _ _ (by decide),
            rowGet?_setCell_self ..]
          rfl
        · rw [rowGet?_setCell_self ..]
          rfl
      · intro t _ htr
        simp only [htr]
        refine ⟨?_, ?_⟩
        · unfold cellOf
          rw [rowGet?_setCell_ne _ _ _ _ (by decide),
            rowGet?_setCell_self ..]
          rfl
        · rw [rowGet?_setCell_self ..]
          rfl
  · intro k g b h
    simp [call_deepseek, h]

/-- C4 witness: the amended rules applied at a concrete batch with one
resolved and one unresolved row, under a present credential with a failing
service and under an empty-response service. -/
theorem reference_bridge_status_witness :
    ((some (cs "key")).isSome = true ∧
     ¬ (∀ r ∈ bridgeFix.rows,
        (cellOf r (cs "generic_name_en")).isSome = true) ∧
     (fun _ _ => (none : Option Str)) (cs "DrugX") (cs "BrandX") = none) ∧
    (List.Forall₂
      (fun rin rout =>
        (∀ v, cellOf rin (cs "generic_name_en") = some v →
          cellOf rout (cs "generic_name_en") = some v ∧
          rowGet? rout (cs "_translation_status") =
            some (some (cs "lookup_success"))) ∧
        (cellOf rin (cs "generic_name_en") = none →
          translateRow (call_deepseek (some (cs "key")) (fun _ _ => none))
            rin = none →
          cellOf rout (cs "generic_name_en") = none ∧
          rowGet? rout (cs "_translation_status") =
            some (some (cs "failed"))) ∧
        (∀ t, cellOf rin (cs "generic_name_en") = none →
          translateRow (call_deepseek (some (cs "key")) (fun _ _ => none))
            rin = some t →
          cellOf rout (cs "generic_name_en") = some t ∧
          rowGet? rout (cs "_translation_status") =
            some (some (cs "ai_translated"))))
      bridgeFix.rows
      (runTranslationStage (some (cs "key")) (fun _ _ => none)
        bridgeFix).rows) ∧
    call_deepseek (some (cs "key")) (fun _ _ => some []) (cs "g") (cs "b") =
      none :=
  ⟨⟨by decide, by decide, rfl⟩,
   (reference_bridge_status_rules (some (cs "key")) (fun _ _ => none)
      bridgeFix).2.2.1 (by decide) (by decide),
   (reference_bridge_status_rules (some (cs "key")) (fun _ _ => some [])
      bridgeFix).2.2.2.1 (cs "key") (cs "g") (cs "b") rfl⟩

end CoreasonEtlPmda
